import Mathlib

/-! The libpinyin glue layer (`src/pinyin.cpp`): persistence, training, candidate ranking
and the per-edit operations (reset, constraints, sentence guessing, parsing helpers).

A shallow embedding of the functions of `pinyin.cpp`.  The file system is an
explicit state (`World`) that also records every file operation performed, so
that statements about the order of writes, renames and deletions are statements
about a list.  Library routines that `pinyin.cpp` calls but that live in other
translation units are collected in the records `Config` (header constants) and
`Lib` (table routines); theorems quantify over them.
-/

namespace Pinyin

/-! ## Bytes, paths and the file system -/

abbrev Bytes := List Nat

abbrev phrase_token_t := Nat

/-- The token that marks the absence of a token. -/
def null_token : phrase_token_t := 0

/-- Header constants used by `pinyin.cpp` and declared in `pinyin_internal.h`. -/
structure Config where
  LIBPINYIN_FORMAT_VERSION : Bytes
  USE_TONE : Nat
  DYNAMIC_ADJUST : Nat
  SEARCH_OK : Nat
  SEARCH_CONTINUED : Nat
  ERROR_OK : Nat
  sentence_start : phrase_token_t
  MAX_PHRASE_LENGTH : Nat
  NO_CONSTRAINT : Nat

/-- One file operation together with its outcome, as recorded in the trace of a `World`. -/
inductive FileOp where
  | load (path : String) (ok : Bool)
  | write (path : String) (content : Bytes) (ok : Bool)
  | fsync (path : String)
  | rename (src dst : String) (ok : Bool)
  | unlink (path : String) (ok : Bool)
  deriving DecidableEq, Repr

/-- Outcome flag of a recorded operation (an `fsync` is only issued on an open file). -/
def FileOp.ok : FileOp → Bool
  | .load _ ok => ok
  | .write _ _ ok => ok
  | .fsync _ => true
  | .rename _ _ ok => ok
  | .unlink _ ok => ok

/-- Whether an operation is a write or a rename. -/
def FileOp.isWriteOrRename : FileOp → Bool
  | .write _ _ _ => true
  | .rename _ _ _ => true
  | _ => false

/-- The file system: file contents by path, the paths that cannot be opened for
writing, and the operations performed so far (oldest first). -/
structure World where
  files : List (String × Bytes)
  unwritable : List String
  trace : List FileOp
  deriving DecidableEq, Repr

/-- Content of the first entry stored under `p`. -/
def lookupFile (p : String) : List (String × Bytes) → Option Bytes
  | [] => none
  | (q, c) :: rest => if q = p then some c else lookupFile p rest

/-- Remove every entry stored under `p`. -/
def removeFile (p : String) : List (String × Bytes) → List (String × Bytes)
  | [] => []
  | (q, c) :: rest => if q = p then removeFile p rest else (q, c) :: removeFile p rest

/-- Store `c` under `p`, replacing what was there. -/
def putFile (p : String) (c : Bytes) (fs : List (String × Bytes)) : List (String × Bytes) :=
  (p, c) :: removeFile p fs

def World.record (w : World) (op : FileOp) : World :=
  { w with trace := w.trace ++ [op] }

/-- Operations performed between an earlier world `w0` and a later world `w`. -/
def World.since (w w0 : World) : List FileOp :=
  w.trace.drop w0.trace.length

/-- The glib path join for a directory and one element; with a NULL directory the
argument list is empty and the result is the empty path. -/
def g_build_filename (dir : Option String) (name : String) : String :=
  match dir with
  | none => ""
  | some d => d ++ "/" ++ name

/-- Modelled from the spec: `MemoryChunk::load` is declared outside `pinyin.cpp`.
It reads the whole file into the chunk; a missing file leaves the chunk empty
and reports failure. -/
def MemoryChunk.load (w : World) (filename : String) : Bool × Bytes × World :=
  match lookupFile filename w.files with
  | some c => (true, c, w.record (.load filename true))
  | none => (false, [], w.record (.load filename false))

/-- Modelled from the spec: `MemoryChunk::save` is declared outside `pinyin.cpp`.
Section 4.9 has every saved file written and then fsynced; a file that cannot be
opened for writing is left as it was and the save reports failure. -/
def MemoryChunk.save (w : World) (filename : String) (content : Bytes) : Bool × World :=
  if filename ∈ w.unwritable then
    (false, w.record (.write filename content false))
  else
    (true, ({ w with files := putFile filename content w.files }.record
      (.write filename content true)).record (.fsync filename))

/-- The libc `rename`: moves the source over the destination, fails when the
source does not exist. -/
def rename (w : World) (src dst : String) : Bool × World :=
  match lookupFile src w.files with
  | some c =>
    (true, { w with files := putFile dst c (removeFile src w.files) }.record
      (.rename src dst true))
  | none => (false, w.record (.rename src dst false))

/-- The libc `unlink` (also behind `g_unlink`): fails when the file does not exist. -/
def unlink (w : World) (filename : String) : Bool × World :=
  match lookupFile filename w.files with
  | some _ =>
    (true, { w with files := removeFile filename w.files }.record (.unlink filename true))
  | none => (false, w.record (.unlink filename false))

/-- The `memcmp(a, b, n) == 0` test on byte lists.  A buffer shorter than `n`
bytes never compares equal to one that has `n` bytes. -/
def memcmp_eq (a b : Bytes) (n : Nat) : Bool :=
  a.take n == b.take n

/-- A C string literal as stored in memory: its bytes and the terminating NUL. -/
def cstring (s : Bytes) : Bytes := s ++ [0]

/-! ## The context -/

/-- The fields of `_pinyin_context_t` that carry data.  Tables are kept as the
byte images they were loaded from; `m_phrase_index` maps a sub-phrase index to
its live image.  The two lookup objects hold no data of their own (they borrow
the tables); they and the parsers (whose only state is the scheme selected) are
reached through the routines of `Lib`. -/
structure Context where
  m_options : Nat
  m_pinyin_table : Bytes
  m_phrase_table : Bytes
  m_phrase_index : List (Nat × Bytes)
  m_system_bigram : Option Bytes
  m_user_bigram : Bytes
  m_system_dir : Option String
  m_user_dir : Option String
  m_modified : Bool
  deriving DecidableEq, Repr

abbrev ChewingKey := Nat

/-- A half-open range of tokens, `m_range_begin` and `m_range_end`. -/
structure PhraseIndexRange where
  m_range_begin : phrase_token_t
  m_range_end : phrase_token_t
  deriving DecidableEq, Repr

/-- An entry of the constraints vector, `lookup_constraint_t`: its type and the
payload of its union (the token of a one-step constraint, or the step of a
no-search one). -/
structure lookup_constraint_t where
  m_type : Nat
  m_token : Nat
  deriving DecidableEq, Repr

/-- Per-edit state of `pinyin_instance_t` (the context it points to is passed alongside). -/
structure Instance where
  m_prefixes : List phrase_token_t
  m_pinyin_keys : List ChewingKey
  m_pinyin_key_rests : List (Nat × Nat)
  m_constraints : List lookup_constraint_t
  m_match_results : List phrase_token_t
  deriving DecidableEq, Repr

/-- Routines of the table classes that `pinyin.cpp` calls and that are defined in
other translation units.  Each works on the byte images held by the context. -/
structure Lib where
  /-- The `SubPhraseIndex` image after replaying a delta log on it. -/
  merge : Bytes → Bytes → Bytes
  /-- The delta log of a live image against the base chunk. -/
  diff : Bytes → Bytes → Bytes
  /-- The database image written by `Bigram::save_db`. -/
  db_image : Bytes → Bytes
  /-- The training routine `PinyinLookup::train_result2`: it returns its status and
  the updated phrase index and user bigram. -/
  train_result2 : List (Nat × Bytes) → Bytes → List ChewingKey → List lookup_constraint_t →
    List phrase_token_t → Bool × List (Nat × Bytes) × Bytes
  /-- The table search `FacadeChewingTable::search(length, keys, ranges)` on a table
  image with its options: the result flags and, per sub-phrase index, the ranges found. -/
  search : Bytes → Nat → Int → List ChewingKey → Nat × (Nat → List PhraseIndexRange)
  /-- The call `get_sub_phrase_range(min_index, max_index)`: error code and the two bounds. -/
  get_sub_phrase_range : List (Nat × Bytes) → Nat × Nat × Nat
  /-- The call `get_phrase_index_total_freq()`. -/
  get_phrase_index_total_freq : List (Nat × Bytes) → Nat
  /-- Unigram frequency of the phrase item of a token. -/
  get_unigram_frequency : List (Nat × Bytes) → phrase_token_t → Nat
  /-- The merged single gram of a predecessor token, from the system and the user
  bigram: its total frequency and the frequency of each successor token. -/
  merged_gram : Option Bytes → Bytes → phrase_token_t → Nat × (phrase_token_t → Nat)
  /-- The `guint32` value of the amplified blend
  `(LAMBDA * bigram_poss + (1 - LAMBDA) * unigram / total) * 256 * 256 * 256`, which the
  source computes in floating point; `bigram_poss` is given as a fraction. -/
  amplified_freq : Nat × Nat → Nat → Nat → Nat
  /-- The call `PinyinLookup::validate_constraint(constraints, keys)`: its status and
  the constraints as it leaves them. -/
  validate_constraint : Context → List lookup_constraint_t → List ChewingKey →
    Bool × List lookup_constraint_t
  /-- The call `PinyinLookup::get_best_match(prefixes, keys, constraints, results)`:
  its status and the match results it writes. -/
  get_best_match : Context → List phrase_token_t → List ChewingKey →
    List lookup_constraint_t → List phrase_token_t → Bool × List phrase_token_t
  /-- The call `FacadePhraseTable::search(length, phrase, token)` on a table image:
  the result flags and the token it stores. -/
  phrase_search : Bytes → Nat → List Nat → Nat × phrase_token_t
  /-- The glib conversion `g_utf8_to_ucs4`: the code points of a UTF-8 string, or
  nothing when the string is not valid UTF-8. -/
  g_utf8_to_ucs4 : Bytes → Option (List Nat)
  /-- The call `FullPinyinParser2::parse_one_key(options, key, str, len)`: the number
  of bytes parsed and the key it stores. -/
  full_parse_one_key : Nat → Bytes → Int → Int × ChewingKey
  /-- The call `DoublePinyinParser2::parse_one_key`, for the scheme in force. -/
  double_parse_one_key : Nat → Bytes → Int → Int × ChewingKey
  /-- The call `ChewingParser2::parse_one_key`, for the scheme in force. -/
  chewing_parse_one_key : Nat → Bytes → Int → Int × ChewingKey

/-- Live image of sub-phrase index `i`, if loaded. -/
def subImage (i : Nat) : List (Nat × Bytes) → Option Bytes
  | [] => none
  | (j, c) :: rest => if j = i then some c else subImage i rest

/-- The call `FacadePhraseIndex::load(i, chunk)`: install the base image of partition `i`. -/
def FacadePhraseIndex.load (pi : List (Nat × Bytes)) (i : Nat) (chunk : Bytes) :
    List (Nat × Bytes) :=
  (i, chunk) :: pi.filter (fun e => decide (e.1 ≠ i))

/-- The call `FacadePhraseIndex::merge(i, log)`: replay a delta log on partition `i`. -/
def FacadePhraseIndex.merge (L : Lib) (pi : List (Nat × Bytes)) (i : Nat) (log : Bytes) :
    List (Nat × Bytes) :=
  pi.map (fun e => if e.1 = i then (e.1, L.merge e.2 log) else e)

/-- The call `FacadePhraseIndex::diff(i, oldchunk, newlog)`: the new delta log of
partition `i`; empty when the partition is not loaded. -/
def FacadePhraseIndex.diff (L : Lib) (pi : List (Nat × Bytes)) (i : Nat) (oldchunk : Bytes) :
    Bytes :=
  match subImage i pi with
  | some live => L.diff live oldchunk
  | none => []

/-- Modelled from the spec: `Bigram::attach` with `ATTACH_READONLY` is declared
outside `pinyin.cpp`; it opens an existing database file and fails when there is none. -/
def Bigram.attach (w : World) (filename : String) : Bool × Option Bytes × World :=
  match lookupFile filename w.files with
  | some c => (true, some c, w.record (.load filename true))
  | none => (false, none, w.record (.load filename false))

/-- Modelled from the spec: `Bigram::load_db` is declared outside `pinyin.cpp`; it
copies the database file into memory and starts from an empty store when there
is none. -/
def Bigram.load_db (w : World) (filename : String) : Bool × Bytes × World :=
  match lookupFile filename w.files with
  | some c => (true, c, w.record (.load filename true))
  | none => (false, [], w.record (.load filename false))

/-- Modelled from the spec: `Bigram::save_db` is declared outside `pinyin.cpp`;
section 4.9 has the user bigram written and fsynced like the delta logs. -/
def Bigram.save_db (L : Lib) (w : World) (bigram : Bytes) (filename : String) : Bool × World :=
  MemoryChunk.save w filename (L.db_image bigram)

/-! ## `check_format`, `mark_version`, `pinyin_init`, `pinyin_save`, `pinyin_train` -/

def check_format (cfg : Config) (userdir : Option String) (w : World) : Bool × World :=
  let filename := g_build_filename userdir "version"
  let r := MemoryChunk.load w filename
  let chunk := r.2.1
  let w := r.2.2
  let found :=
    if r.1 then
      memcmp_eq (cstring cfg.LIBPINYIN_FORMAT_VERSION) chunk
        (cfg.LIBPINYIN_FORMAT_VERSION.length + 1)
    else r.1
  if found then (found, w)
  else
    /- clean up files, if version mis-matches. -/
    let w := (unlink w (g_build_filename userdir "gb_char.dbin")).2
    let w := (unlink w (g_build_filename userdir "gbk_char.dbin")).2
    let w := (unlink w (g_build_filename userdir "user.db")).2
    (found, w)

def mark_version (cfg : Config) (userdir : Option String) (w : World) : Bool × World :=
  let filename := g_build_filename userdir "version"
  MemoryChunk.save w filename (cstring cfg.LIBPINYIN_FORMAT_VERSION)

def pinyin_init (cfg : Config) (L : Lib) (systemdir userdir : Option String) (w : World) :
    Option Context × World :=
  let w := (check_format cfg userdir w).2
  let r := MemoryChunk.load w (g_build_filename systemdir "pinyin_index.bin")
  if !r.1 then (none, r.2.2) else
  let pinyin_table := r.2.1
  let r := MemoryChunk.load r.2.2 (g_build_filename systemdir "phrase_index.bin")
  if !r.1 then (none, r.2.2) else
  let phrase_table := r.2.1
  let r := MemoryChunk.load r.2.2 (g_build_filename systemdir "gb_char.bin")
  if !r.1 then (none, r.2.2) else
  let phrase_index := FacadePhraseIndex.load [] 1 r.2.1
  let r := MemoryChunk.load r.2.2 (g_build_filename userdir "gb_char.dbin")
  let phrase_index := FacadePhraseIndex.merge L phrase_index 1 r.2.1
  let r := MemoryChunk.load r.2.2 (g_build_filename systemdir "gbk_char.bin")
  if !r.1 then (none, r.2.2) else
  let phrase_index := FacadePhraseIndex.load phrase_index 2 r.2.1
  let r := MemoryChunk.load r.2.2 (g_build_filename userdir "gbk_char.dbin")
  let phrase_index := FacadePhraseIndex.merge L phrase_index 2 r.2.1
  let a := Bigram.attach r.2.2 (g_build_filename systemdir "bigram.db")
  let u := Bigram.load_db a.2.2 (g_build_filename userdir "user.db")
  (some
    { m_options := cfg.USE_TONE
      m_pinyin_table := pinyin_table
      m_phrase_table := phrase_table
      m_phrase_index := phrase_index
      m_system_bigram := a.2.1
      m_user_bigram := u.2.1
      m_system_dir := systemdir
      m_user_dir := userdir
      m_modified := false },
    u.2.2)

def pinyin_save (cfg : Config) (L : Lib) (context : Context) (w : World) :
    Bool × Context × World :=
  if context.m_user_dir.isNone then (false, context, w) else
  if !context.m_modified then (false, context, w) else
  let r := MemoryChunk.load w (g_build_filename context.m_system_dir "gb_char.bin")
  let newlog := FacadePhraseIndex.diff L context.m_phrase_index 1 r.2.1
  let tmpfilename := g_build_filename context.m_user_dir "gb_char.dbin.tmp"
  let filename := g_build_filename context.m_user_dir "gb_char.dbin"
  let w := (MemoryChunk.save r.2.2 tmpfilename newlog).2
  let w := (rename w tmpfilename filename).2
  let r := MemoryChunk.load w (g_build_filename context.m_system_dir "gbk_char.bin")
  let newlog := FacadePhraseIndex.diff L context.m_phrase_index 2 r.2.1
  let tmpfilename := g_build_filename context.m_user_dir "gbk_char.dbin.tmp"
  let filename := g_build_filename context.m_user_dir "gbk_char.dbin"
  let w := (MemoryChunk.save r.2.2 tmpfilename newlog).2
  let w := (rename w tmpfilename filename).2
  let tmpfilename := g_build_filename context.m_user_dir "user.db.tmp"
  let w := (unlink w tmpfilename).2
  let filename := g_build_filename context.m_user_dir "user.db"
  let w := (Bigram.save_db L w context.m_user_bigram tmpfilename).2
  let w := (rename w tmpfilename filename).2
  let w := (mark_version cfg context.m_user_dir w).2
  (true, { context with m_modified := false }, w)

def pinyin_train (L : Lib) (context : Context) (instance_ : Instance) (w : World) :
    Bool × Context × World :=
  if context.m_user_dir.isNone then (false, context, w) else
  let context := { context with m_modified := true }
  let r := L.train_result2 context.m_phrase_index context.m_user_bigram
    instance_.m_pinyin_keys instance_.m_constraints instance_.m_match_results
  (r.1, { context with m_phrase_index := r.2.1, m_user_bigram := r.2.2 }, w)

/-! ## Candidate ranking: `compare_token`, `compare_item`, `pinyin_get_candidates` -/

/-- Ways in which a run of the model ends without a result: a failed `assert`, an
array read outside its bounds, or the step budget of a loop used up. -/
inductive Fault where
  | assertion
  | outOfBounds
  | outOfFuel
  deriving DecidableEq, Repr

deriving instance DecidableEq for Except

/-- Conversion of a `guint32` value to `gint`. -/
def toGint (x : Nat) : Int :=
  if x % 4294967296 < 2147483648 then ((x % 4294967296 : Nat) : Int)
  else ((x % 4294967296 : Nat) : Int) - 4294967296

/-- Subtraction of `guint32` values. -/
def sub32 (a b : Nat) : Nat :=
  (a % 4294967296 + 4294967296 - b % 4294967296) % 4294967296

/-- Negation of a `guint32` value. -/
def neg32 (a : Nat) : Nat :=
  (4294967296 - a % 4294967296) % 4294967296

def compare_token (token_lhs token_rhs : phrase_token_t) : Int :=
  toGint (sub32 token_lhs token_rhs)

structure compare_item_t where
  m_token : phrase_token_t
  m_freq : Nat
  deriving DecidableEq, Repr

def compare_item (lhs rhs : compare_item_t) : Int :=
  toGint (neg32 (sub32 lhs.m_freq rhs.m_freq))

/-- The glib `g_array_sort` (a `qsort` with the given comparison function).  The C
library does not fix the algorithm; it is modelled as insertion sort, placing
`a` before `b` when `compare a b <= 0`. -/
def g_array_sort {α : Type} (compare : α → α → Int) (l : List α) : List α :=
  l.insertionSort (fun a b => compare a b ≤ 0)

/-- Modelled from the spec: the sub-phrase index of a token is its high byte. -/
def sub_phrase_index (token : phrase_token_t) : Nat := token / 16777216

/-- The tokens `k` with `m_range_begin <= k < m_range_end`, in increasing order. -/
def rangeTokens (range : PhraseIndexRange) : List phrase_token_t :=
  List.range' range.m_range_begin (range.m_range_end - range.m_range_begin)

/-- The step "reduce to a single GArray": for `m` from `min_index` to `max_index`,
for every range of `ranges[m]`, every token of the range. -/
def reduceRanges (min_index max_index : Nat) (ranges : Nat → List PhraseIndexRange) :
    List phrase_token_t :=
  (List.range' min_index (max_index + 1 - min_index)).flatMap
    (fun m => (ranges m).flatMap rangeTokens)

/-- The loop "remove the duplicated items": an element equal to `last_token` is
removed, and every element examined becomes the next `last_token`. -/
def removeDuplicates (last_token : phrase_token_t) : List phrase_token_t → List phrase_token_t
  | [] => []
  | token :: rest =>
    if last_token = token then removeDuplicates token rest
    else token :: removeDuplicates token rest

/-- The backward loop `for (i = offset - 1; i >= 0; --i)` over `m_match_results`,
entered with `i = n - 1`: the first non-null token found, or `null_token`. -/
def scanBack (match_results : List phrase_token_t) : Nat → Except Fault phrase_token_t
  | 0 => .ok null_token
  | n + 1 =>
    match match_results[n]? with
    | none => .error .outOfBounds
    | some cur_token =>
      if null_token ≠ cur_token then .ok cur_token else scanBack match_results n

/-- The block "lookup the previous token here" of `pinyin_get_candidates`. -/
def lookup_prev_token (cfg : Config) (options : Nat) (offset : Nat)
    (match_results : List phrase_token_t) : Except Fault phrase_token_t :=
  if options &&& cfg.DYNAMIC_ADJUST ≠ 0 then
    if offset = 0 then .ok cfg.sentence_start
    else
      match match_results[offset]? with
      | none => .error .outOfBounds
      | some cur_token =>
        if null_token ≠ cur_token then scanBack match_results offset
        else .ok null_token
  else .ok null_token

/-- The loop "transfer all tokens to items": the item of every token, with its
amplified frequency; the `assert (0 < total_freq)` is checked for each token. -/
def tokensToItems (cfg : Config) (L : Lib) (context : Context) (prev_token : phrase_token_t)
    (merged_gram : Nat × (phrase_token_t → Nat)) :
    List phrase_token_t → Except Fault (List compare_item_t)
  | [] => .ok []
  | token :: rest =>
    let bigram_poss : Nat × Nat :=
      if context.m_options &&& cfg.DYNAMIC_ADJUST ≠ 0 ∧ null_token ≠ prev_token ∧
          0 ≠ merged_gram.1 then
        (merged_gram.2 token, merged_gram.1)
      else (0, 1)
    let total_freq := L.get_phrase_index_total_freq context.m_phrase_index
    if 0 < total_freq then
      let freq := L.amplified_freq bigram_poss
        (L.get_unigram_frequency context.m_phrase_index token) total_freq
      match tokensToItems cfg L context prev_token merged_gram rest with
      | .ok items => .ok ({ m_token := token, m_freq := freq } :: items)
      | .error e => .error e
    else .error .assertion

/-- One pass of the body of the length loop after a successful search: the tokens
of the ranges, sorted and deduplicated, turned into items, sorted by
`compare_item`, and turned back into tokens. -/
def candidateGroup (cfg : Config) (L : Lib) (context : Context) (prev_token : phrase_token_t)
    (merged_gram : Nat × (phrase_token_t → Nat)) (min_index max_index : Nat)
    (ranges : Nat → List PhraseIndexRange) : Except Fault (List phrase_token_t) :=
  let tokens := reduceRanges min_index max_index ranges
  let tokens := g_array_sort compare_token tokens
  let tokens := removeDuplicates null_token tokens
  match tokensToItems cfg L context prev_token merged_gram tokens with
  | .ok items => .ok ((g_array_sort compare_item items).map (fun item => item.m_token))
  | .error e => .error e

/-- The length loop `for (i = pinyin_len; i >= 1; --i)`.  The two inner loops of the
body count with the same variable `i`, so a pass that reaches them leaves `i`
at the number of items of its group.  The state carries the candidates so far
and, for reference, the lengths passed to the table search so far. -/
def candidatesLoop (cfg : Config) (L : Lib) (context : Context) (keys : List ChewingKey)
    (prev_token : phrase_token_t) (merged_gram : Nat × (phrase_token_t → Nat))
    (min_index max_index : Nat) :
    Nat → Int → List phrase_token_t → List Int →
      Except Fault (List phrase_token_t × List Int)
  | 0, _, _, _ => .error .outOfFuel
  | fuel + 1, i, candidates, searched =>
    if i < 1 then .ok (candidates, searched)
    else
      let r := L.search context.m_pinyin_table context.m_options i keys
      let retval := r.1
      let searched := searched ++ [i]
      if retval &&& cfg.SEARCH_OK = 0 then
        candidatesLoop cfg L context keys prev_token merged_gram min_index max_index
          fuel (i - 1) candidates searched
      else
        match candidateGroup cfg L context prev_token merged_gram min_index max_index r.2 with
        | .error e => .error e
        | .ok group =>
          let candidates := candidates ++ group
          let i : Int := (group.length : Int)
          if retval &&& cfg.SEARCH_CONTINUED = 0 then .ok (candidates, searched)
          else
            candidatesLoop cfg L context keys prev_token merged_gram min_index max_index
              fuel (i - 1) candidates searched

/-- The function `pinyin_get_candidates(instance, offset, candidates)`, with a step
budget for the length loop: the candidate list, and the lengths searched. -/
def pinyin_get_candidates (cfg : Config) (L : Lib) (fuel : Nat) (context : Context)
    (instance_ : Instance) (offset : Nat) : Except Fault (List phrase_token_t × List Int) :=
  let options := context.m_options
  let keys := instance_.m_pinyin_keys.drop offset
  let pinyin_len : Int := (instance_.m_pinyin_keys.length : Int) - (offset : Int)
  match lookup_prev_token cfg options offset instance_.m_match_results with
  | .error e => .error e
  | .ok prev_token =>
    let merged_gram : Nat × (phrase_token_t → Nat) :=
      if options &&& cfg.DYNAMIC_ADJUST ≠ 0 ∧ null_token ≠ prev_token then
        L.merged_gram context.m_system_bigram context.m_user_bigram prev_token
      else (0, fun _ => 0)
    let r := L.get_sub_phrase_range context.m_phrase_index
    if cfg.ERROR_OK = r.1 then
      candidatesLoop cfg L context keys prev_token merged_gram r.2.1 r.2.2
        fuel pinyin_len [] []
    else .error .assertion

/-! ## Per-edit operations: reset, constraints, sentence guessing, parsing helpers -/

/-- The function `pinyin_reset`: each of its four `g_array_set_size(..., 0)` calls
keeps the first 0 elements of the array.  The context is handed back as it came. -/
def pinyin_reset (context : Context) (instance_ : Instance) : Bool × Context × Instance :=
  (true, context,
    { instance_ with
      m_pinyin_keys := instance_.m_pinyin_keys.take 0
      m_pinyin_key_rests := instance_.m_pinyin_key_rests.take 0
      m_constraints := instance_.m_constraints.take 0
      m_match_results := instance_.m_match_results.take 0 })

/-- The glib `g_array_set_size` on an array created without zeroing: shrinking
keeps the leading elements; growing exposes, at each new index, whatever the
memory holds there (`slack`). -/
def g_array_set_size {α : Type} (slack : Nat → α) (array : List α) (length : Nat) : List α :=
  if length ≤ array.length then array.take length
  else array ++ (List.range' array.length (length - array.length)).map slack

/-- The loop `for (i = key_len; i < pinyin_keys->len; ++i)` of
`pinyin_update_constraints`: the entries at these indices get the type
`NO_CONSTRAINT`; the walk over the array starts at index `i`. -/
def markNoConstraint (cfg : Config) (key_len pinyin_len : Nat) :
    Nat → List lookup_constraint_t → List lookup_constraint_t
  | _, [] => []
  | i, constraint :: rest =>
    (if key_len ≤ i ∧ i < pinyin_len then { constraint with m_type := cfg.NO_CONSTRAINT }
      else constraint) :: markNoConstraint cfg key_len pinyin_len (i + 1) rest

/-- The constraints as `pinyin_update_constraints` passes them to
`validate_constraint`: resized to the number of keys, new entries marked. -/
def resizedConstraints (cfg : Config) (slack : Nat → lookup_constraint_t)
    (instance_ : Instance) : List lookup_constraint_t :=
  let key_len := instance_.m_constraints.length
  let constraints :=
    g_array_set_size slack instance_.m_constraints instance_.m_pinyin_keys.length
  markNoConstraint cfg key_len instance_.m_pinyin_keys.length 0 constraints

def pinyin_update_constraints (cfg : Config) (L : Lib) (context : Context)
    (slack : Nat → lookup_constraint_t) (instance_ : Instance) : Bool × Instance :=
  let constraints := resizedConstraints cfg slack instance_
  let r := L.validate_constraint context constraints instance_.m_pinyin_keys
  (true, { instance_ with m_constraints := r.2 })

def pinyin_guess_sentence (cfg : Config) (L : Lib) (context : Context)
    (slack : Nat → lookup_constraint_t) (instance_ : Instance) : Bool × Instance :=
  let instance_ :=
    { instance_ with m_prefixes := instance_.m_prefixes.take 0 ++ [cfg.sentence_start] }
  let instance_ := (pinyin_update_constraints cfg L context slack instance_).2
  let r := L.get_best_match context instance_.m_prefixes instance_.m_pinyin_keys
    instance_.m_constraints instance_.m_match_results
  (r.1, { instance_ with m_match_results := r.2 })

/-- The loop "add prefixes" `for (i = 1; i <= written; ++i)` with its
`if (i > MAX_PHRASE_LENGTH) break`; `steps` is the number of values of `i` still
to come, `written + 1 - i`.  The state carries the prefixes and, for reference,
the lengths passed to the phrase table search so far. -/
def addPrefixes (cfg : Config) (L : Lib) (context : Context) (ucs4_str : List Nat)
    (written : Nat) :
    Nat → Nat → List phrase_token_t → List Nat → List phrase_token_t × List Nat
  | 0, _, prefixes, searched => (prefixes, searched)
  | steps + 1, i, prefixes, searched =>
    if i > cfg.MAX_PHRASE_LENGTH then (prefixes, searched)
    else
      let start := ucs4_str.drop (written - i)
      let r := L.phrase_search context.m_phrase_table i start
      let prefixes := if r.1 &&& cfg.SEARCH_OK ≠ 0 then prefixes ++ [r.2] else prefixes
      addPrefixes cfg L context ucs4_str written steps (i + 1) prefixes (searched ++ [i])

/-- The prefixes block of `pinyin_guess_sentence_with_prefix`: the vector is emptied,
`sentence_start` appended, and, when the conversion to UCS-4 gives a non-empty
string, the loop "add prefixes" is run.  Returns the prefixes and the lengths
searched. -/
def seedPrefixes (cfg : Config) (L : Lib) (context : Context) (instance_ : Instance)
    (prefix_ : Bytes) : List phrase_token_t × List Nat :=
  let prefixes := instance_.m_prefixes.take 0 ++ [cfg.sentence_start]
  match L.g_utf8_to_ucs4 prefix_ with
  | some ucs4_str =>
    if ucs4_str.length ≠ 0 then
      addPrefixes cfg L context ucs4_str ucs4_str.length ucs4_str.length 1 prefixes []
    else (prefixes, [])
  | none => (prefixes, [])

def pinyin_guess_sentence_with_prefix (cfg : Config) (L : Lib) (context : Context)
    (slack : Nat → lookup_constraint_t) (instance_ : Instance) (prefix_ : Bytes) :
    Bool × Instance :=
  let prefixes := (seedPrefixes cfg L context instance_ prefix_).1
  let instance_ := { instance_ with m_prefixes := prefixes }
  let instance_ := (pinyin_update_constraints cfg L context slack instance_).2
  let r := L.get_best_match context instance_.m_prefixes instance_.m_pinyin_keys
    instance_.m_constraints instance_.m_match_results
  (r.1, { instance_ with m_match_results := r.2 })

/-- The prefixes as section 4.5 and the claim describe them: `sentence_start`, then
for `i = 1 .. min(n, MAX_PHRASE_LENGTH)` in increasing order the token found for
the last `i` code points, where the phrase table reports `SEARCH_OK`. -/
def seededPrefixes (cfg : Config) (L : Lib) (context : Context) (ucs4_str : List Nat) :
    List phrase_token_t :=
  cfg.sentence_start ::
    (List.range' 1 (min ucs4_str.length cfg.MAX_PHRASE_LENGTH)).filterMap (fun i =>
      if (L.phrase_search context.m_phrase_table i
          (ucs4_str.drop (ucs4_str.length - i))).1 &&& cfg.SEARCH_OK ≠ 0 then
        some (L.phrase_search context.m_phrase_table i
          (ucs4_str.drop (ucs4_str.length - i))).2
      else none)

/-- The helper `pinyin_parse_full_pinyin`; the C string is given by its bytes before
the terminating NUL, so `strlen` is the length of the list.  Returns the result
and the key stored in `*onekey`. -/
def pinyin_parse_full_pinyin (L : Lib) (context : Context) (onepinyin : Bytes) :
    Bool × ChewingKey :=
  let pinyin_len : Int := (onepinyin.length : Int)
  let r := L.full_parse_one_key context.m_options onepinyin pinyin_len
  let parse_len := r.1
  (decide (pinyin_len = parse_len), r.2)

def pinyin_parse_double_pinyin (L : Lib) (context : Context) (onepinyin : Bytes) :
    Bool × ChewingKey :=
  let pinyin_len : Int := (onepinyin.length : Int)
  let r := L.double_parse_one_key context.m_options onepinyin pinyin_len
  let parse_len := r.1
  (decide (pinyin_len = parse_len), r.2)

def pinyin_parse_chewing (L : Lib) (context : Context) (onechewing : Bytes) :
    Bool × ChewingKey :=
  let chewing_len : Int := (onechewing.length : Int)
  let r := L.chewing_parse_one_key context.m_options onechewing chewing_len
  let parse_len := r.1
  (decide (chewing_len = parse_len), r.2)

/-- Operations recorded by one `MemoryChunk::save` of `content` to `p`, given
whether `p` could be opened for writing. -/
def saveOps (p : String) (content : Bytes) (ok : Bool) : List FileOp :=
  if ok then [.write p content true, .fsync p] else [.write p content false]

/-! ## Sample inputs used to instantiate the theorems -/

/-- Constants of the 0.6.92 headers; the tag is the ASCII of `0.6.92`. -/
def cfg0 : Config :=
  { LIBPINYIN_FORMAT_VERSION := [48, 46, 54, 46, 57, 50]
    USE_TONE := 32
    DYNAMIC_ADJUST := 512
    SEARCH_OK := 1
    SEARCH_CONTINUED := 2
    ERROR_OK := 0
    sentence_start := 1
    MAX_PHRASE_LENGTH := 16
    NO_CONSTRAINT := 0 }

def lib0 : Lib :=
  { merge := fun image log => image ++ log
    diff := fun live base => live.drop base.length
    db_image := fun b => b
    train_result2 := fun pi bg _ _ results => (true, pi, bg ++ results)
    search := fun _ _ _ _ => (0, fun _ => [])
    get_sub_phrase_range := fun _ => (0, 1, 2)
    get_phrase_index_total_freq := fun _ => 1000
    get_unigram_frequency := fun _ t => t % 7
    merged_gram := fun _ _ _ => (0, fun _ => 0)
    amplified_freq := fun b u total =>
      min 16777216 ((b.1 * 16777216 / b.2 + u * 16777216 / total) / 2)
    validate_constraint := fun _ constraints _ => (true, constraints)
    get_best_match := fun _ _ keys _ _ => (true, keys.map (fun k => 16777216 + k))
    phrase_search := fun _ i phrase => if i = 2 then (0, 0) else (1, 16777216 + 100 * i + phrase.length)
    g_utf8_to_ucs4 := fun b => some b
    full_parse_one_key := fun _ str _ => if str = [110, 105] then (2, 10) else (0, 0)
    double_parse_one_key := fun _ str _ => if str = [110, 105] then (2, 10) else (0, 0)
    chewing_parse_one_key := fun _ str _ => if str = [110, 105] then (2, 10) else (0, 0) }

/-- A system directory with the four table files and the system bigram, and an
empty user directory. -/
def world0 : World :=
  { files := [("sys/pinyin_index.bin", [1]), ("sys/phrase_index.bin", [2]),
      ("sys/gb_char.bin", [3]), ("sys/gbk_char.bin", [4]), ("sys/bigram.db", [5])]
    unwritable := []
    trace := [] }

/-- The same files, with the temporary delta log of partition 1 not writable. -/
def worldLocked : World :=
  { world0 with unwritable := ["usr/gb_char.dbin.tmp"] }

/-- The system directory without `bigram.db`. -/
def worldNoBigram : World :=
  { files := [("sys/pinyin_index.bin", [1]), ("sys/phrase_index.bin", [2]),
      ("sys/gb_char.bin", [3]), ("sys/gbk_char.bin", [4])]
    unwritable := []
    trace := [] }

/-- The system directory without `gbk_char.bin` (but with `bigram.db`). -/
def worldNoGbk : World :=
  { files := [("sys/pinyin_index.bin", [1]), ("sys/phrase_index.bin", [2]),
      ("sys/gb_char.bin", [3]), ("sys/bigram.db", [5])]
    unwritable := []
    trace := [] }

/-- A user directory with a current version file and user data. -/
def worldUser : World :=
  { files := [("usr/version", [48, 46, 54, 46, 57, 50, 0]), ("usr/gb_char.dbin", [7]),
      ("usr/user.db", [9]), ("sys/gb_char.bin", [3])]
    unwritable := []
    trace := [] }

/-- The same user directory with a version file from another format. -/
def worldStale : World :=
  { files := [("usr/version", [48, 46, 54, 46, 57, 49, 0]), ("usr/gb_char.dbin", [7]),
      ("usr/user.db", [9]), ("sys/gb_char.bin", [3])]
    unwritable := []
    trace := [] }

/-- A context with a user directory and pending training. -/
def ctxModified : Context :=
  { m_options := 32
    m_pinyin_table := [1]
    m_phrase_table := [2]
    m_phrase_index := [(2, [4, 8]), (1, [3, 7])]
    m_system_bigram := some [5]
    m_user_bigram := [9]
    m_system_dir := some "sys"
    m_user_dir := some "usr"
    m_modified := true }

def ctxClean : Context := { ctxModified with m_modified := false }

def ctxNoUserDir : Context := { ctxModified with m_user_dir := none }

def inst0 : Instance :=
  { m_prefixes := [1]
    m_pinyin_keys := [10, 20]
    m_pinyin_key_rests := [(0, 2), (2, 5)]
    m_constraints := [⟨0, 0⟩, ⟨0, 0⟩]
    m_match_results := [16777217, 0] }

/-- A table in which the three keys match phrases of length 3 (two tokens),
length 2 (one token) and length 1 (three tokens), each with longer matches
possible (`SEARCH_OK | SEARCH_CONTINUED`). -/
def libThree : Lib :=
  { lib0 with
    search := fun _ _ i _ =>
      if i = 3 then (3, fun m => if m = 1 then [⟨16777246, 16777248⟩] else [])
      else if i = 2 then (3, fun m => if m = 1 then [⟨16777230, 16777231⟩] else [])
      else if i = 1 then (3, fun m => if m = 1 then [⟨16777217, 16777220⟩] else [])
      else (0, fun _ => []) }

/-- Three parsed syllables, nothing matched yet. -/
def instThree : Instance :=
  { m_prefixes := [1]
    m_pinyin_keys := [10, 20, 30]
    m_pinyin_key_rests := [(0, 2), (2, 5), (5, 7)]
    m_constraints := [⟨0, 0⟩, ⟨0, 0⟩, ⟨0, 0⟩]
    m_match_results := [0, 0, 0] }

/-- The sample context with `DYNAMIC_ADJUST` switched on. -/
def ctxDynamic : Context := { ctxModified with m_options := 32 + 512 }

/-- Overlapping ranges of partitions 1 and 2. -/
def rangesOverlap : Nat → List PhraseIndexRange :=
  fun m => if m = 1 then [⟨16777217, 16777220⟩, ⟨16777218, 16777221⟩]
    else if m = 2 then [⟨33554433, 33554435⟩] else []

/-- A table whose search for two keys finds three tokens, with longer matches
possible (`SEARCH_OK | SEARCH_CONTINUED`), and finds nothing for other lengths. -/
def libLoop : Lib :=
  { lib0 with
    search := fun _ _ i _ =>
      if i = 2 then (3, fun m => if m = 1 then [⟨16777217, 16777220⟩] else [])
      else (0, fun _ => []) }

/-- An instance after a sentence was guessed for two keys and one key was added:
three keys, two constraints, and the seeded prefixes. -/
def instGrown : Instance :=
  { m_prefixes := [1]
    m_pinyin_keys := [10, 20, 30]
    m_pinyin_key_rests := [(0, 2), (2, 5), (5, 7)]
    m_constraints := [⟨1, 16777217⟩, ⟨2, 0⟩]
    m_match_results := [16777217, 0] }

/-- Memory left over from earlier use of the constraints array. -/
def slack0 : Nat → lookup_constraint_t := fun i => ⟨1, 16777216 + i⟩

/-! ## Theorems -/

section Files

theorem lookupFile_putFile_same (p : String) (c : Bytes) (fs : List (String × Bytes)) :
    lookupFile p (putFile p c fs) = some c := by
  simp [putFile, lookupFile]

theorem lookupFile_removeFile_same (p : String) (fs : List (String × Bytes)) :
    lookupFile p (removeFile p fs) = none := by
  induction fs with
  | nil => simp [removeFile, lookupFile]
  | cons e rest ih =>
    obtain ⟨q, c⟩ := e
    by_cases h : q = p
    · simpa [removeFile, h] using ih
    · simp [removeFile, h, lookupFile, ih]

theorem lookupFile_removeFile_ne (p q : String) (h : q ≠ p) (fs : List (String × Bytes)) :
    lookupFile p (removeFile q fs) = lookupFile p fs := by
  induction fs with
  | nil => simp [removeFile, lookupFile]
  | cons e rest ih =>
    obtain ⟨r, c⟩ := e
    by_cases h1 : r = q
    · have h2 : r ≠ p := by rw [h1]; exact h
      simp [removeFile, h1, lookupFile, ih, h]
    · simp [removeFile, h1, lookupFile, ih]

theorem removeFile_of_lookupFile_none (p : String) (fs : List (String × Bytes))
    (h : lookupFile p fs = none) : removeFile p fs = fs := by
  induction fs with
  | nil => rfl
  | cons e rest ih =>
    obtain ⟨q, c⟩ := e
    by_cases h1 : q = p
    · simp [lookupFile, h1] at h
    · simp only [lookupFile, h1, if_false] at h
      simp [removeFile, h1, ih h]

theorem load_trace (w : World) (p : String) :
    (MemoryChunk.load w p).2.2.trace = w.trace ++ [.load p (lookupFile p w.files).isSome] := by
  unfold MemoryChunk.load
  cases lookupFile p w.files <;> simp [World.record]

theorem load_unwritable (w : World) (p : String) :
    (MemoryChunk.load w p).2.2.unwritable = w.unwritable := by
  unfold MemoryChunk.load
  cases lookupFile p w.files <;> simp [World.record]

theorem save_trace (w : World) (p : String) (c : Bytes) :
    (MemoryChunk.save w p c).2.trace = w.trace ++ saveOps p c (decide (p ∉ w.unwritable)) := by
  unfold MemoryChunk.save saveOps
  by_cases h : p ∈ w.unwritable <;> simp [World.record, h]

theorem save_files (w : World) (p : String) (c : Bytes) :
    (MemoryChunk.save w p c).2.files =
      if p ∈ w.unwritable then w.files else putFile p c w.files := by
  unfold MemoryChunk.save
  by_cases h : p ∈ w.unwritable <;> simp [World.record, h]

theorem save_unwritable (w : World) (p : String) (c : Bytes) :
    (MemoryChunk.save w p c).2.unwritable = w.unwritable := by
  unfold MemoryChunk.save
  by_cases h : p ∈ w.unwritable <;> simp [World.record, h]

theorem rename_trace (w : World) (a b : String) :
    (rename w a b).2.trace = w.trace ++ [.rename a b (lookupFile a w.files).isSome] := by
  unfold rename
  cases lookupFile a w.files <;> simp [World.record]

theorem rename_unwritable (w : World) (a b : String) :
    (rename w a b).2.unwritable = w.unwritable := by
  unfold rename
  cases lookupFile a w.files <;> simp [World.record]

theorem unlink_trace (w : World) (p : String) :
    (unlink w p).2.trace = w.trace ++ [.unlink p (lookupFile p w.files).isSome] := by
  unfold unlink
  cases lookupFile p w.files <;> simp [World.record]

theorem unlink_files (w : World) (p : String) :
    (unlink w p).2.files = removeFile p w.files := by
  unfold unlink
  cases h : lookupFile p w.files
  · simp [World.record, removeFile_of_lookupFile_none p w.files h]
  · simp [World.record]

theorem unlink_unwritable (w : World) (p : String) :
    (unlink w p).2.unwritable = w.unwritable := by
  unfold unlink
  cases lookupFile p w.files <;> simp [World.record]

end Files

/-- C1: a save on a context that has no user directory or is not modified returns
false and changes neither the context nor the file system (no operation is
recorded); for every context, a save directly after a save returns false and
changes nothing. -/
theorem pinyin_save_second_is_noop (cfg : Config) (L : Lib) (context : Context) (w : World) :
    (context.m_user_dir = none ∨ context.m_modified = false →
      pinyin_save cfg L context w = (false, context, w)) ∧
    pinyin_save cfg L (pinyin_save cfg L context w).2.1 (pinyin_save cfg L context w).2.2 =
      (false, (pinyin_save cfg L context w).2.1, (pinyin_save cfg L context w).2.2) := by
  have h1 : ∀ (c : Context) (v : World), c.m_user_dir = none ∨ c.m_modified = false →
      pinyin_save cfg L c v = (false, c, v) := by
    intro c v h
    rcases h with h | h
    · simp [pinyin_save, h]
    · simp [pinyin_save, h]
  refine ⟨h1 context w, ?_⟩
  apply h1
  by_cases hu : context.m_user_dir = none
  · left
    rw [h1 context w (Or.inl hu)]
    exact hu
  · by_cases hm : context.m_modified = false
    · right
      rw [h1 context w (Or.inr hm)]
      exact hm
    · right
      simp [pinyin_save, hu, hm]

/-- Witness for C1: the clean sample context satisfies the hypothesis and its save
is a no-op; the modified sample context really saves first (returns true) and
its second save is the no-op. -/
theorem pinyin_save_second_is_noop_witness :
    (ctxClean.m_user_dir = none ∨ ctxClean.m_modified = false) ∧
    pinyin_save cfg0 lib0 ctxClean world0 = (false, ctxClean, world0) ∧
    (pinyin_save cfg0 lib0 ctxModified world0).1 = true :=
  ⟨by decide,
   (pinyin_save_second_is_noop cfg0 lib0 ctxClean world0).1 (by decide),
   by decide⟩

/-- C2, as stated, fails: with the temporary delta log of partition 1 not
writable, the first write of the save fails, yet the context comes back
unmodified.  So it is not the case that a failed write or rename keeps the
context modified. -/
theorem pinyin_save_unmodified_despite_failure :
    ¬ ∀ (cfg : Config) (L : Lib) (context : Context) (w : World),
      context.m_user_dir ≠ none → context.m_modified = true →
      (∃ op ∈ (pinyin_save cfg L context w).2.2.since w,
        op.isWriteOrRename = true ∧ op.ok = false) →
      (pinyin_save cfg L context w).2.1.m_modified = true := by
  intro h
  have h2 := h cfg0 lib0 ctxModified worldLocked (by decide) (by decide)
    ⟨.write "usr/gb_char.dbin.tmp" [7] false, by decide, by decide, by decide⟩
  revert h2
  decide

/-- C2, amended: a save that proceeds (user directory present, context modified)
returns true and hands back the context with the modified flag cleared and
nothing else changed, whatever the outcome of its writes and renames. -/
theorem pinyin_save_clears_modified (cfg : Config) (L : Lib) (context : Context) (w : World)
    (hdir : context.m_user_dir ≠ none) (hmod : context.m_modified = true) :
    (pinyin_save cfg L context w).1 = true ∧
    (pinyin_save cfg L context w).2.1 = { context with m_modified := false } := by
  simp [pinyin_save, hdir, hmod]

/-- Witness for the amended C2, on the world whose first write fails. -/
theorem pinyin_save_clears_modified_witness :
    ctxModified.m_user_dir ≠ none ∧ ctxModified.m_modified = true ∧
    (pinyin_save cfg0 lib0 ctxModified worldLocked).1 = true ∧
    (pinyin_save cfg0 lib0 ctxModified worldLocked).2.1 =
      { ctxModified with m_modified := false } :=
  ⟨by decide, by decide,
   pinyin_save_clears_modified cfg0 lib0 ctxModified worldLocked (by decide) (by decide)⟩

theorem save_then_lookup (w : World) (p : String) (c : Bytes) (h : p ∉ w.unwritable) :
    lookupFile p (MemoryChunk.save w p c).2.files = some c := by
  rw [save_files]
  simp [h, lookupFile_putFile_same]

/-- The operations of a save that proceeds, in order, with the outcome flags that
depend on the file system left open. -/
theorem pinyin_save_ops (cfg : Config) (L : Lib) (context : Context) (w : World) (d : String)
    (hdir : context.m_user_dir = some d) (hmod : context.m_modified = true) :
    ∃ (l1 r1 l2 r2 u3 r3 : Bool),
      (pinyin_save cfg L context w).2.2.since w =
        [.load (g_build_filename context.m_system_dir "gb_char.bin") l1] ++
        (saveOps (g_build_filename (some d) "gb_char.dbin.tmp")
          (FacadePhraseIndex.diff L context.m_phrase_index 1
            (MemoryChunk.load w (g_build_filename context.m_system_dir "gb_char.bin")).2.1)
          (decide (g_build_filename (some d) "gb_char.dbin.tmp" ∉ w.unwritable)) ++
        ([.rename (g_build_filename (some d) "gb_char.dbin.tmp")
            (g_build_filename (some d) "gb_char.dbin") r1] ++
        ([.load (g_build_filename context.m_system_dir "gbk_char.bin") l2] ++
        (saveOps (g_build_filename (some d) "gbk_char.dbin.tmp")
          (FacadePhraseIndex.diff L context.m_phrase_index 2
            (MemoryChunk.load
            (rename
              (MemoryChunk.save
                (MemoryChunk.load w (g_build_filename context.m_system_dir "gb_char.bin")).2.2
                (g_build_filename (some d) "gb_char.dbin.tmp")
                (FacadePhraseIndex.diff L context.m_phrase_index 1
                  (MemoryChunk.load w
                    (g_build_filename context.m_system_dir "gb_char.bin")).2.1)).2
              (g_build_filename (some d) "gb_char.dbin.tmp")
              (g_build_filename (some d) "gb_char.dbin")).2
            (g_build_filename context.m_system_dir "gbk_char.bin")).2.1)
          (decide (g_build_filename (some d) "gbk_char.dbin.tmp" ∉ w.unwritable)) ++
        ([.rename (g_build_filename (some d) "gbk_char.dbin.tmp")
            (g_build_filename (some d) "gbk_char.dbin") r2] ++
        ([.unlink (g_build_filename (some d) "user.db.tmp") u3] ++
        (saveOps (g_build_filename (some d) "user.db.tmp") (L.db_image context.m_user_bigram)
          (decide (g_build_filename (some d) "user.db.tmp" ∉ w.unwritable)) ++
        ([.rename (g_build_filename (some d) "user.db.tmp")
            (g_build_filename (some d) "user.db") r3] ++
        saveOps (g_build_filename (some d) "version") (cstring cfg.LIBPINYIN_FORMAT_VERSION)
          (decide (g_build_filename (some d) "version" ∉ w.unwritable)))))))))) ∧
      (g_build_filename (some d) "gb_char.dbin.tmp" ∉ w.unwritable → r1 = true) ∧
      (g_build_filename (some d) "gbk_char.dbin.tmp" ∉ w.unwritable → r2 = true) ∧
      (g_build_filename (some d) "user.db.tmp" ∉ w.unwritable → r3 = true) := by
  simp only [pinyin_save, hdir, hmod, World.since, mark_version, Bigram.save_db,
    Option.isNone_some, Bool.not_true, Bool.false_eq_true, if_false,
    load_trace, save_trace, rename_trace, unlink_trace,
    load_unwritable, save_unwritable, rename_unwritable, unlink_unwritable,
    List.append_assoc, List.drop_left]
  refine ⟨_, _, _, _, _, _, rfl, ?_, ?_, ?_⟩
  · intro h
    rw [save_then_lookup _ _ _ (by simpa [load_unwritable] using h)]
    rfl
  · intro h
    rw [save_then_lookup _ _ _ (by
      simpa [load_unwritable, save_unwritable, rename_unwritable, unlink_unwritable] using h)]
    rfl
  · intro h
    rw [save_then_lookup _ _ _ (by
      simpa [load_unwritable, save_unwritable, rename_unwritable, unlink_unwritable] using h)]
    rfl

theorem nine_segments {α : Type} (A B C D E F G H I S : List α) :
    ∃ pre, A ++ (B ++ (C ++ (D ++ (E ++ (F ++ (G ++ (H ++ (I ++ S)))))))) = pre ++ S ∧
      (∀ y ∈ C, y ∈ pre) ∧ (∀ y ∈ F, y ∈ pre) ∧ (∀ y ∈ I, y ∈ pre) :=
  ⟨A ++ (B ++ (C ++ (D ++ (E ++ (F ++ (G ++ (H ++ I))))))), by simp,
    by intro y hy; simp [hy], by intro y hy; simp [hy], by intro y hy; simp [hy]⟩

/-- C4: in a save that proceeds, the operations end with the write of the version
file, followed at most by the fsync of that same file; the renames over
`gb_char.dbin`, `gbk_char.dbin` and `user.db` all come before that write. -/
theorem pinyin_save_version_last (cfg : Config) (L : Lib) (context : Context)
    (w : World) (d : String)
    (hdir : context.m_user_dir = some d) (hmod : context.m_modified = true) :
    ∃ (pre post : List FileOp) (ok r1 r2 r3 : Bool),
      (pinyin_save cfg L context w).2.2.since w =
        pre ++ FileOp.write (g_build_filename (some d) "version")
          (cstring cfg.LIBPINYIN_FORMAT_VERSION) ok :: post ∧
      (∀ op ∈ post, op = FileOp.fsync (g_build_filename (some d) "version")) ∧
      FileOp.rename (g_build_filename (some d) "gb_char.dbin.tmp")
        (g_build_filename (some d) "gb_char.dbin") r1 ∈ pre ∧
      FileOp.rename (g_build_filename (some d) "gbk_char.dbin.tmp")
        (g_build_filename (some d) "gbk_char.dbin") r2 ∈ pre ∧
      FileOp.rename (g_build_filename (some d) "user.db.tmp")
        (g_build_filename (some d) "user.db") r3 ∈ pre := by
  obtain ⟨l1, r1, l2, r2, u3, r3, hops, -, -, -⟩ :=
    pinyin_save_ops cfg L context w d hdir hmod
  obtain ⟨pre, hpre, hC, hF, hI⟩ := nine_segments _ _
    [FileOp.rename (g_build_filename (some d) "gb_char.dbin.tmp")
      (g_build_filename (some d) "gb_char.dbin") r1] _ _
    [FileOp.rename (g_build_filename (some d) "gbk_char.dbin.tmp")
      (g_build_filename (some d) "gbk_char.dbin") r2] _ _
    [FileOp.rename (g_build_filename (some d) "user.db.tmp")
      (g_build_filename (some d) "user.db") r3]
    (saveOps (g_build_filename (some d) "version") (cstring cfg.LIBPINYIN_FORMAT_VERSION)
      (decide (g_build_filename (some d) "version" ∉ w.unwritable)))
  rw [hops, hpre]
  by_cases hv : g_build_filename (some d) "version" ∈ w.unwritable
  · refine ⟨pre, [], false, r1, r2, r3, ?_, ?_, hC _ ?_, hF _ ?_, hI _ ?_⟩
    · simp [saveOps, hv]
    all_goals simp
  · refine ⟨pre, [FileOp.fsync (g_build_filename (some d) "version")], true, r1, r2, r3,
      ?_, ?_, hC _ ?_, hF _ ?_, hI _ ?_⟩
    · simp [saveOps, hv]
    all_goals simp

/-- Witness for C4 on the sample context. -/
theorem pinyin_save_version_last_witness :
    ctxModified.m_user_dir = some "usr" ∧ ctxModified.m_modified = true ∧
    ∃ (pre post : List FileOp) (ok r1 r2 r3 : Bool),
      (pinyin_save cfg0 lib0 ctxModified world0).2.2.since world0 =
        pre ++ FileOp.write (g_build_filename (some "usr") "version")
          (cstring cfg0.LIBPINYIN_FORMAT_VERSION) ok :: post ∧
      (∀ op ∈ post, op = FileOp.fsync (g_build_filename (some "usr") "version")) ∧
      FileOp.rename (g_build_filename (some "usr") "gb_char.dbin.tmp")
        (g_build_filename (some "usr") "gb_char.dbin") r1 ∈ pre ∧
      FileOp.rename (g_build_filename (some "usr") "gbk_char.dbin.tmp")
        (g_build_filename (some "usr") "gbk_char.dbin") r2 ∈ pre ∧
      FileOp.rename (g_build_filename (some "usr") "user.db.tmp")
        (g_build_filename (some "usr") "user.db") r3 ∈ pre :=
  ⟨rfl, rfl, pinyin_save_version_last cfg0 lib0 ctxModified world0 "usr" rfl rfl⟩

theorem lookupFile_removeFile_of_none (p q : String) (fs : List (String × Bytes))
    (h : lookupFile p fs = none) : lookupFile p (removeFile q fs) = none := by
  by_cases hq : q = p
  · subst hq
    exact lookupFile_removeFile_same q fs
  · rw [lookupFile_removeFile_ne p q hq]
    exact h

theorem memcmp_eq_cstring (v c : Bytes) :
    memcmp_eq (cstring v) c (v.length + 1) = true ↔ c.take (v.length + 1) = cstring v := by
  have h : (cstring v).take (v.length + 1) = cstring v := by
    apply List.take_of_length_le
    simp [cstring]
  simp only [memcmp_eq, h, beq_iff_eq]
  exact eq_comm

/-- C5: `check_format` returns true exactly when the version file exists and its
first `strlen + 1` bytes are the format tag with its terminating NUL; when it
returns true the files are untouched and only the load was performed; when it
returns false the three user files are gone and the operations were the load
followed by the three unlinks. -/
theorem check_format_spec (cfg : Config) (userdir : Option String) (w : World) :
    ((check_format cfg userdir w).1 = true ↔
      ∃ c, lookupFile (g_build_filename userdir "version") w.files = some c ∧
        c.take (cfg.LIBPINYIN_FORMAT_VERSION.length + 1) =
          cstring cfg.LIBPINYIN_FORMAT_VERSION) ∧
    ((check_format cfg userdir w).1 = true →
      (check_format cfg userdir w).2.files = w.files ∧
      (check_format cfg userdir w).2.since w =
        [FileOp.load (g_build_filename userdir "version") true]) ∧
    ((check_format cfg userdir w).1 = false →
      lookupFile (g_build_filename userdir "gb_char.dbin")
        (check_format cfg userdir w).2.files = none ∧
      lookupFile (g_build_filename userdir "gbk_char.dbin")
        (check_format cfg userdir w).2.files = none ∧
      lookupFile (g_build_filename userdir "user.db")
        (check_format cfg userdir w).2.files = none ∧
      ∃ l u1 u2 u3 : Bool, (check_format cfg userdir w).2.since w =
        [FileOp.load (g_build_filename userdir "version") l,
         FileOp.unlink (g_build_filename userdir "gb_char.dbin") u1,
         FileOp.unlink (g_build_filename userdir "gbk_char.dbin") u2,
         FileOp.unlink (g_build_filename userdir "user.db") u3]) := by
  have hload : ∀ c, lookupFile (g_build_filename userdir "version") w.files = some c →
      MemoryChunk.load w (g_build_filename userdir "version") =
        (true, c, w.record (.load (g_build_filename userdir "version") true)) := by
    intro c hc
    simp [MemoryChunk.load, hc]
  have hnone : lookupFile (g_build_filename userdir "version") w.files = none →
      MemoryChunk.load w (g_build_filename userdir "version") =
        (false, [], w.record (.load (g_build_filename userdir "version") false)) := by
    intro hc
    simp [MemoryChunk.load, hc]
  have hdel : ∀ v : World,
      lookupFile (g_build_filename userdir "gb_char.dbin")
        (unlink (unlink (unlink v (g_build_filename userdir "gb_char.dbin")).2
          (g_build_filename userdir "gbk_char.dbin")).2
          (g_build_filename userdir "user.db")).2.files = none ∧
      lookupFile (g_build_filename userdir "gbk_char.dbin")
        (unlink (unlink (unlink v (g_build_filename userdir "gb_char.dbin")).2
          (g_build_filename userdir "gbk_char.dbin")).2
          (g_build_filename userdir "user.db")).2.files = none ∧
      lookupFile (g_build_filename userdir "user.db")
        (unlink (unlink (unlink v (g_build_filename userdir "gb_char.dbin")).2
          (g_build_filename userdir "gbk_char.dbin")).2
          (g_build_filename userdir "user.db")).2.files = none := by
    intro v
    simp only [unlink_files]
    refine ⟨?_, ?_, ?_⟩
    · apply lookupFile_removeFile_of_none
      apply lookupFile_removeFile_of_none
      exact lookupFile_removeFile_same _ _
    · apply lookupFile_removeFile_of_none
      exact lookupFile_removeFile_same _ _
    · exact lookupFile_removeFile_same _ _
  cases hc : lookupFile (g_build_filename userdir "version") w.files with
  | none =>
    have hf : (check_format cfg userdir w).1 = false := by
      simp [check_format, hnone hc]
    refine ⟨by simp [hf], by simp [hf], fun _ => ?_⟩
    simp only [check_format, hnone hc, Bool.false_eq_true, if_false]
    refine ⟨(hdel _).1, (hdel _).2.1, (hdel _).2.2, false, ?_⟩
    simp only [World.since, unlink_trace, World.record, List.append_assoc, List.drop_left]
    exact ⟨_, _, _, rfl⟩
  | some c =>
    by_cases hm : c.take (cfg.LIBPINYIN_FORMAT_VERSION.length + 1) =
        cstring cfg.LIBPINYIN_FORMAT_VERSION
    · have hmm := (memcmp_eq_cstring cfg.LIBPINYIN_FORMAT_VERSION c).2 hm
      have hf : check_format cfg userdir w =
          (true, w.record (.load (g_build_filename userdir "version") true)) := by
        simp [check_format, hload c hc, hmm]
      refine ⟨by simp [hf, hm], fun _ => ?_, by simp [hf]⟩
      simp [hf, World.record, World.since]
    · have hmm : memcmp_eq (cstring cfg.LIBPINYIN_FORMAT_VERSION) c
          (cfg.LIBPINYIN_FORMAT_VERSION.length + 1) = false := by
        rw [Bool.eq_false_iff]
        intro h
        exact hm ((memcmp_eq_cstring cfg.LIBPINYIN_FORMAT_VERSION c).1 h)
      have hf : (check_format cfg userdir w).1 = false := by
        simp [check_format, hload c hc, hmm]
      refine ⟨by simp [hf, hm], by simp [hf], fun _ => ?_⟩
      simp only [check_format, hload c hc, hmm, Bool.false_eq_true, if_false, if_true]
      refine ⟨(hdel _).1, (hdel _).2.1, (hdel _).2.2, true, ?_⟩
      simp only [World.since, unlink_trace, World.record, List.append_assoc, List.drop_left]
      exact ⟨_, _, _, rfl⟩

/-- Witness for C5: with a current version file the check succeeds and keeps the
user files; with a stale one it fails and the user files are gone. -/
theorem check_format_spec_witness :
    (check_format cfg0 (some "usr") worldUser).1 = true ∧
    (check_format cfg0 (some "usr") worldUser).2.files = worldUser.files ∧
    (check_format cfg0 (some "usr") worldStale).1 = false ∧
    lookupFile (g_build_filename (some "usr") "gb_char.dbin")
      (check_format cfg0 (some "usr") worldStale).2.files = none ∧
    lookupFile (g_build_filename (some "usr") "gb_char.dbin") worldStale.files = some [7] :=
  ⟨by decide,
   ((check_format_spec cfg0 (some "usr") worldUser).2.1 (by decide)).1,
   by decide,
   ((check_format_spec cfg0 (some "usr") worldStale).2.2 (by decide)).1,
   by decide⟩

/-- C6, the failing case: a system directory whose `bigram.db` is missing still
yields a context, while the missing sibling `gbk_char.bin` yields none. -/
theorem pinyin_init_returns_context_without_bigram :
    lookupFile (g_build_filename (some "sys") "bigram.db") worldNoBigram.files = none ∧
    (pinyin_init cfg0 lib0 (some "sys") (some "usr") worldNoBigram).1.isSome = true ∧
    (pinyin_init cfg0 lib0 (some "sys") (some "usr") worldNoGbk).1 = none := by
  decide

/-- C7: with a user directory, training sets the modified flag and leaves the file
system and its trace as they were; without one it returns false and hands back
the context unchanged, whatever the training routine is. -/
theorem pinyin_train_marks_modified (L : Lib) (context : Context) (instance_ : Instance)
    (w : World) :
    (context.m_user_dir ≠ none →
      (pinyin_train L context instance_ w).2.1.m_modified = true ∧
      (pinyin_train L context instance_ w).2.2 = w) ∧
    (context.m_user_dir = none →
      pinyin_train L context instance_ w = (false, context, w)) := by
  constructor
  · intro h
    simp [pinyin_train, h]
  · intro h
    simp [pinyin_train, h]

/-- Witness for C7 on a clean context with a user directory and on one without. -/
theorem pinyin_train_marks_modified_witness :
    ctxClean.m_user_dir ≠ none ∧ ctxClean.m_modified = false ∧
    ((pinyin_train lib0 ctxClean inst0 world0).2.1.m_modified = true ∧
      (pinyin_train lib0 ctxClean inst0 world0).2.2 = world0) ∧
    ctxNoUserDir.m_user_dir = none ∧
    pinyin_train lib0 ctxNoUserDir inst0 world0 = (false, ctxNoUserDir, world0) :=
  ⟨by decide, by decide,
   (pinyin_train_marks_modified lib0 ctxClean inst0 world0).1 (by decide),
   by decide,
   (pinyin_train_marks_modified lib0 ctxNoUserDir inst0 world0).2 (by decide)⟩

/-- C8, the failing case: three keys whose table has matches of every length,
each flagged `SEARCH_OK | SEARCH_CONTINUED`.  The lengths searched are 3, 1, 2 in
that order, and the three candidates of length 1 come before the candidate of
length 2. -/
theorem pinyin_get_candidates_lengths_out_of_order :
    pinyin_get_candidates cfg0 libThree 10 ctxModified instThree 0 =
      .ok ([16777247, 16777246, 16777219, 16777218, 16777217, 16777230], [3, 1, 2]) ∧
    candidateGroup cfg0 libThree ctxModified 0 (0, fun _ => 0) 1 2
      (libThree.search ctxModified.m_pinyin_table ctxModified.m_options 1 [10, 20, 30]).2 =
      .ok [16777219, 16777218, 16777217] ∧
    candidateGroup cfg0 libThree ctxModified 0 (0, fun _ => 0) 1 2
      (libThree.search ctxModified.m_pinyin_table ctxModified.m_options 2 [10, 20, 30]).2 =
      .ok [16777230] := by
  decide

section PrevToken

theorem scanBack_found (mr : List phrase_token_t) (j : Nat) (t : phrase_token_t)
    (hj : mr[j]? = some t) (ht : t ≠ null_token) :
    ∀ n, j < n → (∀ k, j < k → k < n → mr[k]? = some null_token) →
      scanBack mr n = .ok t := by
  intro n
  induction n with
  | zero => intro h; omega
  | succ n ih =>
    intro hjn hk
    by_cases hjn2 : j = n
    · subst hjn2
      simp [scanBack, hj, Ne.symm ht]
    · have hn : mr[n]? = some null_token := hk n (by omega) (by omega)
      simp only [scanBack, hn, ne_eq, not_true_eq_false, if_false]
      exact ih (by omega) (fun k h1 h2 => hk k h1 (by omega))

theorem scanBack_all_null (mr : List phrase_token_t) :
    ∀ n, (∀ k, k < n → mr[k]? = some null_token) → scanBack mr n = .ok null_token := by
  intro n
  induction n with
  | zero => intro _; rfl
  | succ n ih =>
    intro hk
    have hn : mr[n]? = some null_token := hk n (by omega)
    simp only [scanBack, hn, ne_eq, not_true_eq_false, if_false]
    exact ih (fun k h => hk k (by omega))

end PrevToken

/-- C9, as stated, fails: with `DYNAMIC_ADJUST` on, offset 1 and match results
`[16777217, null_token]`, the nearest non-null token before the offset is
16777217, but the predecessor used is `null_token`. -/
theorem lookup_prev_token_null_at_offset :
    ¬ ∀ (cfg : Config) (options offset : Nat) (match_results : List phrase_token_t)
        (j : Nat) (t : phrase_token_t),
      options &&& cfg.DYNAMIC_ADJUST ≠ 0 → 0 < offset → offset < match_results.length →
      j < offset → match_results[j]? = some t → t ≠ null_token →
      (∀ k, j < k → k < offset → match_results[k]? = some null_token) →
      lookup_prev_token cfg options offset match_results = .ok t := by
  intro h
  have h2 := h cfg0 ctxDynamic.m_options 1 inst0.m_match_results 0 16777217
    (by decide) (by decide) (by decide) (by decide) (by decide) (by decide)
    (fun k h1 h2 => by omega)
  revert h2
  decide

/-- C9, amended: with `DYNAMIC_ADJUST` on, the predecessor is `sentence_start` at
offset 0; at an offset whose own match result is a non-null token it is the
non-null token nearest before the offset, or `null_token` when every earlier
entry is null; at an offset whose own match result is `null_token` it is
`null_token`. -/
theorem lookup_prev_token_spec (cfg : Config) (options offset : Nat)
    (match_results : List phrase_token_t)
    (hdyn : options &&& cfg.DYNAMIC_ADJUST ≠ 0) :
    (offset = 0 →
      lookup_prev_token cfg options offset match_results = .ok cfg.sentence_start) ∧
    (0 < offset → ∀ cur, match_results[offset]? = some cur → cur ≠ null_token →
      (∀ j t, j < offset → match_results[j]? = some t → t ≠ null_token →
        (∀ k, j < k → k < offset → match_results[k]? = some null_token) →
        lookup_prev_token cfg options offset match_results = .ok t) ∧
      ((∀ k, k < offset → match_results[k]? = some null_token) →
        lookup_prev_token cfg options offset match_results = .ok null_token)) ∧
    (0 < offset → match_results[offset]? = some null_token →
      lookup_prev_token cfg options offset match_results = .ok null_token) := by
  refine ⟨?_, ?_, ?_⟩
  · intro h0
    simp [lookup_prev_token, hdyn, h0]
  · intro hpos cur hcur hne
    have hoff : offset ≠ 0 := by omega
    have hl : lookup_prev_token cfg options offset match_results =
        scanBack match_results offset := by
      simp [lookup_prev_token, hdyn, hoff, hcur, Ne.symm hne]
    rw [hl]
    exact ⟨fun j t hj hjt ht hk => scanBack_found match_results j t hjt ht offset hj hk,
      fun hk => scanBack_all_null match_results offset hk⟩
  · intro hpos hcur
    have hoff : offset ≠ 0 := by omega
    simp [lookup_prev_token, hdyn, hoff, hcur]

/-- Witness for the amended C9: the three cases on sample match results. -/
theorem lookup_prev_token_spec_witness :
    lookup_prev_token cfg0 544 0 [16777217, 0, 16777230] = .ok cfg0.sentence_start ∧
    lookup_prev_token cfg0 544 2 [16777217, 0, 16777230] = .ok 16777217 ∧
    lookup_prev_token cfg0 544 1 [16777217, 0, 16777230] = .ok null_token :=
  ⟨(lookup_prev_token_spec cfg0 544 0 [16777217, 0, 16777230] (by decide)).1 rfl,
   ((lookup_prev_token_spec cfg0 544 2 [16777217, 0, 16777230] (by decide)).2.1
      (by decide) 16777230 (by decide) (by decide)).1 0 16777217 (by decide) (by decide)
      (by decide) (fun k h1 h2 => by
        have hk : k = 1 := by omega
        subst hk
        decide),
   (lookup_prev_token_spec cfg0 544 1 [16777217, 0, 16777230] (by decide)).2.2
      (by decide) (by decide)⟩

section Groups

theorem compare_token_le_iff (a b : Nat) (ha : a < 268435456) (hb : b < 268435456) :
    compare_token a b ≤ 0 ↔ a ≤ b := by
  unfold compare_token toGint sub32
  split_ifs <;> omega

theorem orderedInsert_congr {α : Type} (r s : α → α → Prop) [DecidableRel r] [DecidableRel s]
    (a : α) (l : List α) (h : ∀ b ∈ l, (r a b ↔ s a b)) :
    l.orderedInsert r a = l.orderedInsert s a := by
  induction l with
  | nil => rfl
  | cons b l ih =>
    have hb : r a b ↔ s a b := h b (by simp)
    have ih2 := ih (fun c hc => h c (by simp [hc]))
    by_cases hr : r a b
    · simp [List.orderedInsert, hr, hb.1 hr]
    · have hs : ¬ s a b := fun hs => hr (hb.2 hs)
      simp [List.orderedInsert, hr, hs, ih2]

theorem insertionSort_congr {α : Type} (r s : α → α → Prop) [DecidableRel r] [DecidableRel s]
    (l : List α) (h : ∀ a ∈ l, ∀ b ∈ l, (r a b ↔ s a b)) :
    l.insertionSort r = l.insertionSort s := by
  induction l with
  | nil => rfl
  | cons b l ih =>
    have ih2 := ih (fun a ha c hc => h a (by simp [ha]) c (by simp [hc]))
    simp only [List.insertionSort, ih2]
    apply orderedInsert_congr
    intro c hc
    rw [List.mem_insertionSort] at hc
    exact h b (by simp) c (by simp [hc])

theorem removeDuplicates_sorted (l : List phrase_token_t) :
    ∀ last : phrase_token_t, l.Sorted (fun a b => a ≤ b) → (∀ x ∈ l, last ≤ x) →
      (removeDuplicates last l).Sorted (fun a b => a < b) ∧
      (∀ x ∈ removeDuplicates last l, last < x) ∧
      (∀ x, x ∈ removeDuplicates last l ↔ x ∈ l ∧ x ≠ last) := by
  induction l with
  | nil =>
    intro last _ _
    simp [removeDuplicates]
  | cons t rest ih =>
    intro last hs hl
    have hs2 := List.sorted_cons.1 hs
    obtain ⟨h1, h2, h3⟩ := ih t hs2.2 hs2.1
    have hlt : last ≤ t := hl t (by simp)
    by_cases heq : last = t
    · subst heq
      simp only [removeDuplicates, if_true]
      refine ⟨h1, h2, ?_⟩
      intro x
      rw [h3 x]
      constructor
      · intro h
        exact ⟨by simp [h.1], h.2⟩
      · intro h
        refine ⟨?_, h.2⟩
        rcases List.mem_cons.1 h.1 with h4 | h4
        · exact absurd h4 h.2
        · exact h4
    · have hlt2 : last < t := lt_of_le_of_ne hlt heq
      simp only [removeDuplicates, heq, if_false]
      refine ⟨List.sorted_cons.2 ⟨h2, h1⟩, ?_, ?_⟩
      · intro x hx
        rcases List.mem_cons.1 hx with h4 | h4
        · rw [h4]; exact hlt2
        · exact lt_trans hlt2 (h2 x h4)
      · intro x
        rw [List.mem_cons, h3 x, List.mem_cons]
        constructor
        · intro h
          rcases h with h | h
          · exact ⟨Or.inl h, by rw [h]; exact (ne_of_lt hlt2).symm⟩
          · have : t ≤ x := hs2.1 x h.1
            exact ⟨Or.inr h.1, (lt_of_lt_of_le hlt2 this).ne'⟩
        · intro h
          rcases h.1 with h4 | h4
          · exact Or.inl h4
          · by_cases hxt : x = t
            · exact Or.inl hxt
            · exact Or.inr ⟨h4, hxt⟩

theorem tokensToItems_ok (cfg : Config) (L : Lib) (context : Context)
    (prev_token : phrase_token_t) (merged_gram : Nat × (phrase_token_t → Nat))
    (htot : 0 < L.get_phrase_index_total_freq context.m_phrase_index)
    (tokens : List phrase_token_t) :
    ∃ items, tokensToItems cfg L context prev_token merged_gram tokens = .ok items ∧
      items.map (fun item => item.m_token) = tokens := by
  induction tokens with
  | nil => exact ⟨[], rfl, rfl⟩
  | cons t rest ih =>
    obtain ⟨items, h1, h2⟩ := ih
    simp only [tokensToItems, htot, if_true, h1]
    exact ⟨_, rfl, by simp [h2]⟩

/-- The tokens of a group are a permutation of the deduplicated tokens of the
ranges, provided the tokens lie below `2^28` and the total frequency is positive. -/
theorem candidateGroup_perm (cfg : Config) (L : Lib) (context : Context)
    (prev_token : phrase_token_t) (merged_gram : Nat × (phrase_token_t → Nat))
    (min_index max_index : Nat) (ranges : Nat → List PhraseIndexRange)
    (htot : 0 < L.get_phrase_index_total_freq context.m_phrase_index) :
    ∃ g, candidateGroup cfg L context prev_token merged_gram min_index max_index ranges
        = .ok g ∧
      g.Perm (removeDuplicates null_token
        (g_array_sort compare_token (reduceRanges min_index max_index ranges))) := by
  obtain ⟨items, h1, h2⟩ := tokensToItems_ok cfg L context prev_token merged_gram htot
    (removeDuplicates null_token
      (g_array_sort compare_token (reduceRanges min_index max_index ranges)))
  simp only [candidateGroup, h1]
  refine ⟨_, rfl, ?_⟩
  rw [← h2]
  exact (List.perm_insertionSort _ items).map _

end Groups

/-- The members of a group: when the total frequency is positive (the assertion of
the loop holds) and every token covered by the ranges lies below `2^28`, the
group is produced, contains no token twice, and its tokens are the covered
tokens that differ from the initial `last_token` of the loop, `null_token`. -/
theorem candidateGroup_members (cfg : Config) (L : Lib) (context : Context)
    (prev_token : phrase_token_t) (merged_gram : Nat × (phrase_token_t → Nat))
    (min_index max_index : Nat) (ranges : Nat → List PhraseIndexRange)
    (htot : 0 < L.get_phrase_index_total_freq context.m_phrase_index)
    (hidx : ∀ t ∈ reduceRanges min_index max_index ranges, sub_phrase_index t ≤ 15) :
    ∃ g, candidateGroup cfg L context prev_token merged_gram min_index max_index ranges
        = .ok g ∧
      g.Nodup ∧
      ∀ t, t ∈ g ↔ (t ∈ reduceRanges min_index max_index ranges ∧ t ≠ null_token) := by
  obtain ⟨g, hg, hperm⟩ := candidateGroup_perm cfg L context prev_token merged_gram
    min_index max_index ranges htot
  have hlt : ∀ t : Nat, t ∈ reduceRanges min_index max_index ranges → t < 268435456 := by
    intro t ht
    have h15 : t / 16777216 ≤ 15 := hidx t ht
    omega
  have hsort : g_array_sort compare_token (reduceRanges min_index max_index ranges) =
      (reduceRanges min_index max_index ranges).insertionSort (fun a b => a ≤ b) := by
    unfold g_array_sort
    apply insertionSort_congr
    intro a ha b hb
    exact compare_token_le_iff a b (hlt a ha) (hlt b hb)
  rw [hsort] at hperm
  have hsorted : ((reduceRanges min_index max_index ranges).insertionSort
      (fun a b => a ≤ b)).Sorted (fun a b => a ≤ b) :=
    List.sorted_insertionSort (fun a b : Nat => a ≤ b) _
  obtain ⟨h1, -, h3⟩ := removeDuplicates_sorted _ null_token hsorted
    (fun x _ => Nat.zero_le x)
  refine ⟨g, hg, ?_, ?_⟩
  · rw [hperm.nodup_iff]
    exact h1.nodup
  · intro t
    rw [hperm.mem_iff, h3 t, List.mem_insertionSort]

/-- C10: when every token covered by the ranges the table search returned belongs
to a sub-phrase index from 1 to 15 (and the total frequency is positive, so the
assertion of the loop holds), the group is produced, no token occurs twice in
it, and its tokens are exactly the tokens covered by the ranges. -/
theorem candidateGroup_deduplicated (cfg : Config) (L : Lib) (context : Context)
    (prev_token : phrase_token_t) (merged_gram : Nat × (phrase_token_t → Nat))
    (min_index max_index : Nat) (ranges : Nat → List PhraseIndexRange)
    (htot : 0 < L.get_phrase_index_total_freq context.m_phrase_index)
    (hidx : ∀ t ∈ reduceRanges min_index max_index ranges,
      1 ≤ sub_phrase_index t ∧ sub_phrase_index t ≤ 15) :
    ∃ g, candidateGroup cfg L context prev_token merged_gram min_index max_index ranges
        = .ok g ∧
      g.Nodup ∧
      ∀ t, t ∈ g ↔ t ∈ reduceRanges min_index max_index ranges := by
  obtain ⟨g, hg, hnodup, hmem⟩ := candidateGroup_members cfg L context prev_token
    merged_gram min_index max_index ranges htot (fun t ht => (hidx t ht).2)
  refine ⟨g, hg, hnodup, ?_⟩
  intro t
  rw [hmem t]
  constructor
  · intro h
    exact h.1
  · intro h
    refine ⟨h, ?_⟩
    intro h0
    have h1 := (hidx t h).1
    rw [h0] at h1
    exact absurd h1 (by decide)

/-- Witness for C10 on overlapping ranges of partitions 1 and 2: the hypotheses
hold, and the group has the five covered tokens once each. -/
theorem candidateGroup_deduplicated_witness :
    0 < lib0.get_phrase_index_total_freq ctxModified.m_phrase_index ∧
    (∀ t ∈ reduceRanges 1 2 rangesOverlap,
      1 ≤ sub_phrase_index t ∧ sub_phrase_index t ≤ 15) ∧
    reduceRanges 1 2 rangesOverlap =
      [16777217, 16777218, 16777219, 16777218, 16777219, 16777220, 33554433, 33554434] ∧
    ∃ g, candidateGroup cfg0 lib0 ctxModified 0 (0, fun _ => 0) 1 2 rangesOverlap = .ok g ∧
      g.Nodup ∧ ∀ t, t ∈ g ↔ t ∈ reduceRanges 1 2 rangesOverlap :=
  ⟨by decide, by decide, by decide,
   candidateGroup_deduplicated cfg0 lib0 ctxModified 0 (0, fun _ => 0) 1 2 rangesOverlap
     (by decide) (by decide)⟩

section Scores

theorem compare_item_sign (lhs rhs : compare_item_t)
    (hl : lhs.m_freq ≤ 16777216) (hr : rhs.m_freq ≤ 16777216) :
    (compare_item lhs rhs < 0 ↔ lhs.m_freq > rhs.m_freq) ∧
    (compare_item lhs rhs = 0 ↔ lhs.m_freq = rhs.m_freq) ∧
    (compare_item lhs rhs > 0 ↔ lhs.m_freq < rhs.m_freq) := by
  unfold compare_item toGint neg32 sub32
  refine ⟨?_, ?_, ?_⟩ <;> split_ifs <;> omega

theorem tokensToItems_bound (cfg : Config) (L : Lib) (context : Context)
    (prev_token : phrase_token_t) (merged_gram : Nat × (phrase_token_t → Nat))
    (hfreq : ∀ b u t, L.amplified_freq b u t ≤ 16777216) :
    ∀ (tokens : List phrase_token_t) (items : List compare_item_t),
      tokensToItems cfg L context prev_token merged_gram tokens = .ok items →
      ∀ item ∈ items, item.m_freq ≤ 16777216 := by
  intro tokens
  induction tokens with
  | nil =>
    intro items h item hitem
    simp only [tokensToItems, Except.ok.injEq] at h
    subst h
    simp at hitem
  | cons t rest ih =>
    intro items h item hitem
    simp only [tokensToItems] at h
    split at h
    · split at h
      · rename_i items2 hrest
        simp only [Except.ok.injEq] at h
        subst h
        rcases List.mem_cons.1 hitem with h1 | h1
        · subst h1
          exact hfreq _ _ _
        · exact ih items2 hrest item h1
      · simp at h
    · simp at h

end Scores

/-- C11: for two items whose `m_freq` is at most `2^24`, `compare_item` is negative
exactly when the left frequency is larger, zero exactly when they are equal and
positive exactly when it is smaller; and when the amplified frequencies stay
within `2^24` (and the total frequency is positive), the items of a group, as
sorted by `compare_item`, are in descending order of `m_freq` and the group is
their tokens in that order. -/
theorem candidateGroup_sorted_descending (cfg : Config) (L : Lib) (context : Context)
    (prev_token : phrase_token_t) (merged_gram : Nat × (phrase_token_t → Nat))
    (min_index max_index : Nat) (ranges : Nat → List PhraseIndexRange)
    (htot : 0 < L.get_phrase_index_total_freq context.m_phrase_index)
    (hfreq : ∀ b u t, L.amplified_freq b u t ≤ 16777216) :
    (∀ lhs rhs : compare_item_t, lhs.m_freq ≤ 16777216 → rhs.m_freq ≤ 16777216 →
      (compare_item lhs rhs < 0 ↔ lhs.m_freq > rhs.m_freq) ∧
      (compare_item lhs rhs = 0 ↔ lhs.m_freq = rhs.m_freq) ∧
      (compare_item lhs rhs > 0 ↔ lhs.m_freq < rhs.m_freq)) ∧
    ∃ items : List compare_item_t,
      tokensToItems cfg L context prev_token merged_gram
        (removeDuplicates null_token
          (g_array_sort compare_token (reduceRanges min_index max_index ranges))) = .ok items ∧
      candidateGroup cfg L context prev_token merged_gram min_index max_index ranges =
        .ok ((g_array_sort compare_item items).map (fun item => item.m_token)) ∧
      (g_array_sort compare_item items).Sorted (fun a b => a.m_freq ≥ b.m_freq) := by
  refine ⟨fun lhs rhs hl hr => compare_item_sign lhs rhs hl hr, ?_⟩
  obtain ⟨items, h1, -⟩ := tokensToItems_ok cfg L context prev_token merged_gram htot
    (removeDuplicates null_token
      (g_array_sort compare_token (reduceRanges min_index max_index ranges)))
  refine ⟨items, h1, by simp only [candidateGroup, h1], ?_⟩
  have hb := tokensToItems_bound cfg L context prev_token merged_gram hfreq _ items h1
  have hsort : g_array_sort compare_item items =
      items.insertionSort (fun a b => a.m_freq ≥ b.m_freq) := by
    unfold g_array_sort
    apply insertionSort_congr
    intro a ha b hb2
    have hs := compare_item_sign a b (hb a ha) (hb b hb2)
    constructor
    · intro hle
      rcases lt_or_eq_of_le hle with h | h
      · exact le_of_lt (hs.1.1 h)
      · exact le_of_eq (hs.2.1.1 h).symm
    · intro hge
      by_contra hcon
      have hpos : compare_item a b > 0 := lt_of_not_ge hcon
      have := hs.2.2.1 hpos
      omega
  rw [hsort]
  haveI : IsTotal compare_item_t (fun a b => a.m_freq ≥ b.m_freq) :=
    ⟨fun a b => Nat.le_total b.m_freq a.m_freq⟩
  haveI : IsTrans compare_item_t (fun a b => a.m_freq ≥ b.m_freq) :=
    ⟨fun a b c hab hbc => Nat.le_trans hbc hab⟩
  exact List.sorted_insertionSort (fun a b : compare_item_t => a.m_freq ≥ b.m_freq) items

/-- Witness for C11 on the overlapping sample ranges: the group and its frequencies. -/
theorem candidateGroup_sorted_descending_witness :
    0 < lib0.get_phrase_index_total_freq ctxModified.m_phrase_index ∧
    ∃ items : List compare_item_t,
      tokensToItems cfg0 lib0 ctxModified 0 (0, fun _ => 0)
        (removeDuplicates null_token
          (g_array_sort compare_token (reduceRanges 1 2 rangesOverlap))) = .ok items ∧
      candidateGroup cfg0 lib0 ctxModified 0 (0, fun _ => 0) 1 2 rangesOverlap =
        .ok ((g_array_sort compare_item items).map (fun item => item.m_token)) ∧
      (g_array_sort compare_item items).Sorted (fun a b => a.m_freq ≥ b.m_freq) :=
  ⟨by decide,
   (candidateGroup_sorted_descending cfg0 lib0 ctxModified 0 (0, fun _ => 0) 1 2 rangesOverlap
     (by decide) (by
       intro b u t
       exact Nat.min_le_left _ _)).2⟩

section Termination

theorem candidateGroup_libLoop :
    candidateGroup cfg0 libLoop ctxModified 0 (0, fun _ => 0) 1 2
      (libLoop.search ctxModified.m_pinyin_table ctxModified.m_options 2 [10, 20]).2 =
      .ok [16777219, 16777218, 16777217] := by
  decide

/-- On the sample table the length loop, entered with `i = 2`, uses up every step
budget: each pass finds three items and continues with `i = 3 - 1`. -/
theorem candidatesLoop_libLoop (fuel : Nat) :
    ∀ (candidates : List phrase_token_t) (searched : List Int),
      candidatesLoop cfg0 libLoop ctxModified [10, 20] 0 (0, fun _ => 0) 1 2
        fuel 2 candidates searched = .error .outOfFuel := by
  induction fuel with
  | zero => intro candidates searched; rfl
  | succ n ih =>
    intro candidates searched
    rw [candidatesLoop]
    have h1 : ¬ ((2 : Int) < 1) := by decide
    have h2 : ¬ ((libLoop.search ctxModified.m_pinyin_table ctxModified.m_options 2
        [10, 20]).1 &&& cfg0.SEARCH_OK = 0) := by decide
    have h3 : ¬ ((libLoop.search ctxModified.m_pinyin_table ctxModified.m_options 2
        [10, 20]).1 &&& cfg0.SEARCH_CONTINUED = 0) := by decide
    simp only [h1, h2, h3, if_false, candidateGroup_libLoop]
    exact ih _ _

end Termination

/-- C12, the failing case: two keys and a table whose search for length 2 returns
`SEARCH_OK | SEARCH_CONTINUED` with three tokens.  Whatever the step budget, the
length loop does not finish: every pass searches length 2 again. -/
theorem pinyin_get_candidates_does_not_finish (fuel : Nat) :
    pinyin_get_candidates cfg0 libLoop fuel ctxModified inst0 0 = .error .outOfFuel := by
  have h : pinyin_get_candidates cfg0 libLoop fuel ctxModified inst0 0 =
      candidatesLoop cfg0 libLoop ctxModified [10, 20] 0 (0, fun _ => 0) 1 2
        fuel 2 [] [] := rfl
  rw [h]
  exact candidatesLoop_libLoop fuel [] []

/-- C13, as stated, fails: after `pinyin_reset` on an instance whose prefix vector
holds `sentence_start`, the prefix vector still has length 1. -/
theorem pinyin_reset_keeps_prefixes :
    ¬ ∀ (context : Context) (instance_ : Instance),
      (pinyin_reset context instance_).2.2.m_pinyin_keys.length = 0 ∧
      (pinyin_reset context instance_).2.2.m_pinyin_key_rests.length = 0 ∧
      (pinyin_reset context instance_).2.2.m_constraints.length = 0 ∧
      (pinyin_reset context instance_).2.2.m_match_results.length = 0 ∧
      (pinyin_reset context instance_).2.2.m_prefixes.length = 0 ∧
      (pinyin_reset context instance_).1 = true ∧
      (pinyin_reset context instance_).2.1 = context := by
  intro h
  have h2 := (h ctxModified inst0).2.2.2.2.1
  revert h2
  decide

/-- C13, amended: after `pinyin_reset` the syllable keys, key rests, constraints and
match results have length 0, the call returns true, the context is unchanged,
and the prefix tokens are left as they were. -/
theorem pinyin_reset_clears (context : Context) (instance_ : Instance) :
    (pinyin_reset context instance_).2.2.m_pinyin_keys.length = 0 ∧
    (pinyin_reset context instance_).2.2.m_pinyin_key_rests.length = 0 ∧
    (pinyin_reset context instance_).2.2.m_constraints.length = 0 ∧
    (pinyin_reset context instance_).2.2.m_match_results.length = 0 ∧
    (pinyin_reset context instance_).2.2.m_prefixes = instance_.m_prefixes ∧
    (pinyin_reset context instance_).1 = true ∧
    (pinyin_reset context instance_).2.1 = context := by
  simp [pinyin_reset]

section Constraints

theorem g_array_set_size_length {α : Type} (slack : Nat → α) (array : List α) (length : Nat) :
    (g_array_set_size slack array length).length = length := by
  unfold g_array_set_size
  split
  · simp only [List.length_take]
    omega
  · simp only [List.length_append, List.length_map, List.length_range']
    omega

theorem g_array_set_size_old {α : Type} (slack : Nat → α) (array : List α) (length i : Nat)
    (h1 : i < array.length) (h2 : i < length) :
    (g_array_set_size slack array length)[i]? = array[i]? := by
  unfold g_array_set_size
  split
  · rw [List.getElem?_take]
    simp [h2]
  · exact List.getElem?_append_left h1

theorem g_array_set_size_new {α : Type} (slack : Nat → α) (array : List α) (length i : Nat)
    (h1 : array.length ≤ i) (h2 : i < length) :
    (g_array_set_size slack array length)[i]? = some (slack i) := by
  unfold g_array_set_size
  have h3 : ¬ length ≤ array.length := by omega
  simp only [h3, if_false]
  rw [List.getElem?_append_right h1, List.getElem?_map]
  have h4 : i - array.length < length - array.length := by omega
  have h5 : (List.range' array.length (length - array.length))[i - array.length]? =
      some (array.length + (i - array.length)) := by
    rw [List.getElem?_range' _ _ h4]
    simp
  rw [h5]
  simp only [Option.map_some']
  congr 2
  omega

theorem markNoConstraint_length (cfg : Config) (key_len pinyin_len : Nat)
    (l : List lookup_constraint_t) :
    ∀ i, (markNoConstraint cfg key_len pinyin_len i l).length = l.length := by
  induction l with
  | nil => intro i; rfl
  | cons c rest ih => intro i; simp [markNoConstraint, ih]

theorem markNoConstraint_get (cfg : Config) (key_len pinyin_len : Nat)
    (l : List lookup_constraint_t) :
    ∀ i j, (markNoConstraint cfg key_len pinyin_len i l)[j]? =
      (l[j]?).map (fun c =>
        if key_len ≤ i + j ∧ i + j < pinyin_len then { c with m_type := cfg.NO_CONSTRAINT }
        else c) := by
  induction l with
  | nil => intro i j; simp [markNoConstraint]
  | cons c rest ih =>
    intro i j
    cases j with
    | zero => simp [markNoConstraint]
    | succ j =>
      simp only [markNoConstraint, List.getElem?_cons_succ, ih]
      have h : i + 1 + j = i + (j + 1) := by omega
      rw [h]

end Constraints

/-- C14: the vector that both guess functions pass to `validate_constraint` has
exactly as many entries as there are keys, agrees with the old constraints at
every position below both lengths, and has type `NO_CONSTRAINT` at every newly
appended position; `get_best_match` is then called with the current keys and
with the constraints as `validate_constraint` left them.  When
`validate_constraint` keeps the length of the vector, the constraints the lookup
receives have the length of the keys. -/
theorem guess_sentence_validates_constraints (cfg : Config) (L : Lib) (context : Context)
    (slack : Nat → lookup_constraint_t) (instance_ : Instance) (prefix_ : Bytes) :
    (resizedConstraints cfg slack instance_).length = instance_.m_pinyin_keys.length ∧
    (∀ i, i < instance_.m_constraints.length → i < instance_.m_pinyin_keys.length →
      (resizedConstraints cfg slack instance_)[i]? = instance_.m_constraints[i]?) ∧
    (∀ i, instance_.m_constraints.length ≤ i → i < instance_.m_pinyin_keys.length →
      ∃ c, (resizedConstraints cfg slack instance_)[i]? = some c ∧
        c.m_type = cfg.NO_CONSTRAINT) ∧
    pinyin_guess_sentence cfg L context slack instance_ =
      ((L.get_best_match context [cfg.sentence_start] instance_.m_pinyin_keys
          (L.validate_constraint context (resizedConstraints cfg slack instance_)
            instance_.m_pinyin_keys).2
          instance_.m_match_results).1,
        { instance_ with
          m_prefixes := [cfg.sentence_start]
          m_constraints :=
            (L.validate_constraint context (resizedConstraints cfg slack instance_)
            instance_.m_pinyin_keys).2
          m_match_results :=
            (L.get_best_match context [cfg.sentence_start] instance_.m_pinyin_keys
              (L.validate_constraint context (resizedConstraints cfg slack instance_)
            instance_.m_pinyin_keys).2
              instance_.m_match_results).2 }) ∧
    pinyin_guess_sentence_with_prefix cfg L context slack instance_ prefix_ =
      ((L.get_best_match context (seedPrefixes cfg L context instance_ prefix_).1
          instance_.m_pinyin_keys
          (L.validate_constraint context (resizedConstraints cfg slack instance_)
            instance_.m_pinyin_keys).2
          instance_.m_match_results).1,
        { instance_ with
          m_prefixes := (seedPrefixes cfg L context instance_ prefix_).1
          m_constraints :=
            (L.validate_constraint context (resizedConstraints cfg slack instance_)
            instance_.m_pinyin_keys).2
          m_match_results :=
            (L.get_best_match context (seedPrefixes cfg L context instance_ prefix_).1
              instance_.m_pinyin_keys
              (L.validate_constraint context (resizedConstraints cfg slack instance_)
            instance_.m_pinyin_keys).2
              instance_.m_match_results).2 }) ∧
    ((∀ c k, (L.validate_constraint context c k).2.length = c.length) →
      (pinyin_guess_sentence cfg L context slack instance_).2.m_constraints.length =
        instance_.m_pinyin_keys.length ∧
      ( pinyin_guess_sentence_with_prefix cfg L context slack instance_
        prefix_).2.m_constraints.length = instance_.m_pinyin_keys.length) := by
  have hlen : (resizedConstraints cfg slack instance_).length =
      instance_.m_pinyin_keys.length := by
    simp only [resizedConstraints, markNoConstraint_length, g_array_set_size_length]
  have hg : pinyin_guess_sentence cfg L context slack instance_ =
      ((L.get_best_match context [cfg.sentence_start] instance_.m_pinyin_keys
          (L.validate_constraint context (resizedConstraints cfg slack instance_)
            instance_.m_pinyin_keys).2
          instance_.m_match_results).1,
        { instance_ with
          m_prefixes := [cfg.sentence_start]
          m_constraints :=
            (L.validate_constraint context (resizedConstraints cfg slack instance_)
            instance_.m_pinyin_keys).2
          m_match_results :=
            (L.get_best_match context [cfg.sentence_start] instance_.m_pinyin_keys
              (L.validate_constraint context (resizedConstraints cfg slack instance_)
            instance_.m_pinyin_keys).2
              instance_.m_match_results).2 }) := by
    simp [pinyin_guess_sentence, pinyin_update_constraints, resizedConstraints]
  have hp : pinyin_guess_sentence_with_prefix cfg L context slack instance_ prefix_ =
      ((L.get_best_match context (seedPrefixes cfg L context instance_ prefix_).1
          instance_.m_pinyin_keys
          (L.validate_constraint context (resizedConstraints cfg slack instance_)
            instance_.m_pinyin_keys).2
          instance_.m_match_results).1,
        { instance_ with
          m_prefixes := (seedPrefixes cfg L context instance_ prefix_).1
          m_constraints :=
            (L.validate_constraint context (resizedConstraints cfg slack instance_)
            instance_.m_pinyin_keys).2
          m_match_results :=
            (L.get_best_match context (seedPrefixes cfg L context instance_ prefix_).1
              instance_.m_pinyin_keys
              (L.validate_constraint context (resizedConstraints cfg slack instance_)
            instance_.m_pinyin_keys).2
              instance_.m_match_results).2 }) := by
    simp [ pinyin_guess_sentence_with_prefix, pinyin_update_constraints, resizedConstraints]
  refine ⟨hlen, ?_, ?_, hg, hp, ?_⟩
  · intro i h1 h2
    simp only [resizedConstraints, markNoConstraint_get, g_array_set_size_old slack _ _ i h1 h2]
    cases hc : instance_.m_constraints[i]? with
    | none => rfl
    | some c =>
      have h3 : ¬ (instance_.m_constraints.length ≤ 0 + i ∧
          0 + i < instance_.m_pinyin_keys.length) := by omega
      simp only [Option.map_some', h3, if_false]
  · intro i h1 h2
    refine ⟨{ (slack i) with m_type := cfg.NO_CONSTRAINT }, ?_, rfl⟩
    simp only [resizedConstraints, markNoConstraint_get, g_array_set_size_new slack _ _ i h1 h2]
    have h3 : instance_.m_constraints.length ≤ 0 + i ∧
        0 + i < instance_.m_pinyin_keys.length := by omega
    simp only [Option.map_some', h3, and_self, if_true]
  · intro hv
    rw [hg, hp]
    simp only [hv, hlen, and_self]

/-- Witness for C14: an instance with three keys and two constraints; the sample
`validate_constraint` keeps the length, and the lookup receives three
constraints, the new one of type `NO_CONSTRAINT`. -/
theorem guess_sentence_validates_constraints_witness :
    (∀ c k, (lib0.validate_constraint ctxModified c k).2.length = c.length) ∧
    (pinyin_guess_sentence cfg0 lib0 ctxModified slack0 instGrown).2.m_constraints.length =
      instGrown.m_pinyin_keys.length ∧
    (∃ c, (resizedConstraints cfg0 slack0 instGrown)[2]? = some c ∧
      c.m_type = cfg0.NO_CONSTRAINT) ∧
    (resizedConstraints cfg0 slack0 instGrown)[1]? = instGrown.m_constraints[1]? :=
  ⟨fun _ _ => rfl,
   ((guess_sentence_validates_constraints cfg0 lib0 ctxModified slack0 instGrown
      [20320, 22909]).2.2.2.2.2 (fun _ _ => rfl)).1,
   (guess_sentence_validates_constraints cfg0 lib0 ctxModified slack0 instGrown
      [20320, 22909]).2.2.1 2 (by decide) (by decide),
   (guess_sentence_validates_constraints cfg0 lib0 ctxModified slack0 instGrown
      [20320, 22909]).2.1 1 (by decide) (by decide)⟩

section Prefixes

theorem addPrefixes_eq (cfg : Config) (L : Lib) (context : Context) (ucs4_str : List Nat)
    (written : Nat) :
    ∀ (steps i : Nat) (prefixes : List phrase_token_t) (searched : List Nat),
      addPrefixes cfg L context ucs4_str written steps i prefixes searched =
        (prefixes ++
          (List.range' i (min steps (cfg.MAX_PHRASE_LENGTH + 1 - i))).filterMap (fun i =>
            if (L.phrase_search context.m_phrase_table i
                (ucs4_str.drop (written - i))).1 &&& cfg.SEARCH_OK ≠ 0 then
              some (L.phrase_search context.m_phrase_table i
                (ucs4_str.drop (written - i))).2
            else none),
         searched ++ List.range' i (min steps (cfg.MAX_PHRASE_LENGTH + 1 - i))) := by
  intro steps
  induction steps with
  | zero =>
    intro i prefixes searched
    simp [addPrefixes]
  | succ n ih =>
    intro i prefixes searched
    by_cases hi : i > cfg.MAX_PHRASE_LENGTH
    · have h0 : min (n + 1) (cfg.MAX_PHRASE_LENGTH + 1 - i) = 0 := by omega
      simp [addPrefixes, hi, h0]
    · have h1 : min (n + 1) (cfg.MAX_PHRASE_LENGTH + 1 - i) =
          min n (cfg.MAX_PHRASE_LENGTH + 1 - (i + 1)) + 1 := by omega
      simp only [addPrefixes, hi, if_false, ih, h1, List.range'_succ, List.filterMap_cons]
      by_cases hok : (L.phrase_search context.m_phrase_table i
          (ucs4_str.drop (written - i))).1 &&& cfg.SEARCH_OK ≠ 0
      · simp [hok]
      · simp [hok]

end Prefixes

/-- C15: after `pinyin_guess_sentence` the prefixes are `[sentence_start]`; after
`pinyin_guess_sentence_with_prefix` they are the seeded prefixes of the code
points of the prefix (just `[sentence_start]` when the prefix is not valid
UTF-8): `sentence_start`, then for `i = 1 .. min(n, MAX_PHRASE_LENGTH)` in
increasing order the token of the last `i` code points where the phrase table
reports `SEARCH_OK`.  The lengths searched are exactly these `i`, none above
`MAX_PHRASE_LENGTH`; the first element is `sentence_start` and there are at most
`1 + MAX_PHRASE_LENGTH` elements. -/
theorem guess_sentence_prefixes_seeded (cfg : Config) (L : Lib) (context : Context)
    (slack : Nat → lookup_constraint_t) (instance_ : Instance) (prefix_ : Bytes) :
    (pinyin_guess_sentence cfg L context slack instance_).2.m_prefixes =
      [cfg.sentence_start] ∧
    ( pinyin_guess_sentence_with_prefix cfg L context slack instance_ prefix_).2.m_prefixes =
      (seedPrefixes cfg L context instance_ prefix_).1 ∧
    (seedPrefixes cfg L context instance_ prefix_).1 =
      (match L.g_utf8_to_ucs4 prefix_ with
        | some ucs4_str => seededPrefixes cfg L context ucs4_str
        | none => [cfg.sentence_start]) ∧
    (seedPrefixes cfg L context instance_ prefix_).2 =
      (match L.g_utf8_to_ucs4 prefix_ with
        | some ucs4_str => List.range' 1 (min ucs4_str.length cfg.MAX_PHRASE_LENGTH)
        | none => []) ∧
    (∀ i ∈ (seedPrefixes cfg L context instance_ prefix_).2, i ≤ cfg.MAX_PHRASE_LENGTH) ∧
    (seedPrefixes cfg L context instance_ prefix_).1.head? = some cfg.sentence_start ∧
    (seedPrefixes cfg L context instance_ prefix_).1.length ≤ 1 + cfg.MAX_PHRASE_LENGTH := by
  have h1 : (seedPrefixes cfg L context instance_ prefix_).1 =
      (match L.g_utf8_to_ucs4 prefix_ with
        | some ucs4_str => seededPrefixes cfg L context ucs4_str
        | none => [cfg.sentence_start]) := by
    unfold seedPrefixes seededPrefixes
    cases hu : L.g_utf8_to_ucs4 prefix_ with
    | none => simp
    | some u =>
      by_cases hn : u.length = 0
      · simp [hn]
      · simp [hn, addPrefixes_eq]
  have h2 : (seedPrefixes cfg L context instance_ prefix_).2 =
      (match L.g_utf8_to_ucs4 prefix_ with
        | some ucs4_str => List.range' 1 (min ucs4_str.length cfg.MAX_PHRASE_LENGTH)
        | none => []) := by
    unfold seedPrefixes
    cases hu : L.g_utf8_to_ucs4 prefix_ with
    | none => simp
    | some u =>
      by_cases hn : u.length = 0
      · simp [hn]
      · simp [hn, addPrefixes_eq]
  refine ⟨?_, ?_, h1, h2, ?_, ?_, ?_⟩
  · simp [pinyin_guess_sentence, pinyin_update_constraints]
  · simp [ pinyin_guess_sentence_with_prefix, pinyin_update_constraints]
  · rw [h2]
    intro i hi
    cases hu : L.g_utf8_to_ucs4 prefix_ with
    | none => simp [hu] at hi
    | some u =>
      simp only [hu, List.mem_range'] at hi
      obtain ⟨k, hk, rfl⟩ := hi
      omega
  · rw [h1]
    cases hu : L.g_utf8_to_ucs4 prefix_ with
    | none => rfl
    | some u => rfl
  · rw [h1]
    cases hu : L.g_utf8_to_ucs4 prefix_ with
    | none => simp
    | some u =>
      simp only [seededPrefixes, List.length_cons]
      have h3 := List.length_filterMap_le (fun i =>
        if (L.phrase_search context.m_phrase_table i
            (u.drop (u.length - i))).1 &&& cfg.SEARCH_OK ≠ 0 then
          some (L.phrase_search context.m_phrase_table i (u.drop (u.length - i))).2
        else none) (List.range' 1 (min u.length cfg.MAX_PHRASE_LENGTH))
      simp only [List.length_range'] at h3
      omega

/-- Witness for C15: a prefix of three code points where the sample phrase table
finds the last one and the last three, but not the last two. -/
theorem guess_sentence_prefixes_seeded_witness :
    ( pinyin_guess_sentence_with_prefix cfg0 lib0 ctxModified slack0 instGrown
      [20320, 22909, 21834]).2.m_prefixes = [1, 16777317, 16777519] ∧
    (seedPrefixes cfg0 lib0 ctxModified instGrown [20320, 22909, 21834]).2 = [1, 2, 3] ∧
    (pinyin_guess_sentence cfg0 lib0 ctxModified slack0 instGrown).2.m_prefixes = [1] :=
  ⟨(guess_sentence_prefixes_seeded cfg0 lib0 ctxModified slack0 instGrown
      [20320, 22909, 21834]).2.1.trans (by decide),
   by decide,
   (guess_sentence_prefixes_seeded cfg0 lib0 ctxModified slack0 instGrown
      [20320, 22909, 21834]).1⟩

/-- C16, as stated, fails: on the empty string the sample parser reports failure
(0 bytes parsed), yet `pinyin_parse_full_pinyin` returns true. -/
theorem pinyin_parse_full_pinyin_true_on_empty :
    ¬ ∀ (L : Lib) (context : Context) (onepinyin : Bytes),
      (L.full_parse_one_key context.m_options onepinyin (onepinyin.length : Int)).1 = 0 →
      (pinyin_parse_full_pinyin L context onepinyin).1 = false := by
  intro h
  have h2 := h lib0 ctxModified [] (by decide)
  revert h2
  decide

/-- C16, amended: each of the three helpers returns true exactly when the number
of bytes `parse_one_key` reports equals the length of the input.  So on a
non-empty input it returns false when `parse_one_key` reports failure (0), and
on the empty input it returns true when `parse_one_key` reports 0. -/
theorem pinyin_parse_helpers_compare_lengths (L : Lib) (context : Context) (input : Bytes) :
    ((pinyin_parse_full_pinyin L context input).1 = true ↔
      (L.full_parse_one_key context.m_options input (input.length : Int)).1 =
        (input.length : Int)) ∧
    ((pinyin_parse_double_pinyin L context input).1 = true ↔
      (L.double_parse_one_key context.m_options input (input.length : Int)).1 =
        (input.length : Int)) ∧
    ((pinyin_parse_chewing L context input).1 = true ↔
      (L.chewing_parse_one_key context.m_options input (input.length : Int)).1 =
        (input.length : Int)) ∧
    (input ≠ [] →
      ((L.full_parse_one_key context.m_options input (input.length : Int)).1 = 0 →
        (pinyin_parse_full_pinyin L context input).1 = false) ∧
      ((L.double_parse_one_key context.m_options input (input.length : Int)).1 = 0 →
        (pinyin_parse_double_pinyin L context input).1 = false) ∧
      ((L.chewing_parse_one_key context.m_options input (input.length : Int)).1 = 0 →
        (pinyin_parse_chewing L context input).1 = false)) ∧
    (input = [] →
      ((L.full_parse_one_key context.m_options input (input.length : Int)).1 = 0 →
        (pinyin_parse_full_pinyin L context input).1 = true) ∧
      ((L.double_parse_one_key context.m_options input (input.length : Int)).1 = 0 →
        (pinyin_parse_double_pinyin L context input).1 = true) ∧
      ((L.chewing_parse_one_key context.m_options input (input.length : Int)).1 = 0 →
        (pinyin_parse_chewing L context input).1 = true)) := by
  refine ⟨?_, ?_, ?_, ?_, ?_⟩
  · simp only [pinyin_parse_full_pinyin, decide_eq_true_eq]
    exact eq_comm
  · simp only [pinyin_parse_double_pinyin, decide_eq_true_eq]
    exact eq_comm
  · simp only [pinyin_parse_chewing, decide_eq_true_eq]
    exact eq_comm
  · intro hne
    have hlen : (input.length : Int) ≠ 0 := by
      intro h
      apply hne
      exact List.length_eq_zero.1 (by exact_mod_cast h)
    refine ⟨?_, ?_, ?_⟩
    · intro h
      simp only [pinyin_parse_full_pinyin, h, decide_eq_false_iff_not]
      exact hlen
    · intro h
      simp only [pinyin_parse_double_pinyin, h, decide_eq_false_iff_not]
      exact hlen
    · intro h
      simp only [pinyin_parse_chewing, h, decide_eq_false_iff_not]
      exact hlen
  · intro he
    subst he
    refine ⟨?_, ?_, ?_⟩
    · intro h
      simp only [pinyin_parse_full_pinyin, decide_eq_true_eq]
      simpa using h.symm
    · intro h
      simp only [pinyin_parse_double_pinyin, decide_eq_true_eq]
      simpa using h.symm
    · intro h
      simp only [pinyin_parse_chewing, decide_eq_true_eq]
      simpa using h.symm

/-- Witness for the amended C16 with the sample parser: a syllable that spans the
input, an input with an unparsed rest, and the empty input. -/
theorem pinyin_parse_helpers_compare_lengths_witness :
    (pinyin_parse_full_pinyin lib0 ctxModified [110, 105]).1 = true ∧
    (pinyin_parse_full_pinyin lib0 ctxModified [110, 105, 104]).1 = false ∧
    (pinyin_parse_full_pinyin lib0 ctxModified []).1 = true :=
  ⟨(pinyin_parse_helpers_compare_lengths lib0 ctxModified [110, 105]).1.2 (by decide),
   ((pinyin_parse_helpers_compare_lengths lib0 ctxModified [110, 105, 104]).2.2.2.1
      (by decide)).1 (by decide),
   ((pinyin_parse_helpers_compare_lengths lib0 ctxModified []).2.2.2.2 rfl).1 (by decide)⟩

end Pinyin
